import Mathlib

/-!
# Daily journal controller (`script.js`): model and verified properties

A shallow embedding of the single controller in `script.js`: the date key
utility, the record store (`localStorage`), the task renderer, the view
loader, the debounced save path and the sidebar index.

Modelling conventions

* A JavaScript string is its sequence of UTF-16 code units (`JSString`).
* `localStorage` is the list of its key/value pairs in `key(n)` order.
* The DOM elements the controller touches are fields of `State`; the journal
  field holds the value the program reads from it, and a value the program
  assigns to it has its line breaks normalised, as a text area does.
* `JSON.stringify` and `JSON.parse` are modelled on code units: the
  serialiser with the escapes of ECMAScript, the parser for the whole JSON
  grammar. Limits of an engine (nesting depth, memory) are not modelled.
* Timers are entries of the event loop with a due time in milliseconds; a
  timer runs at its due time, before any action that comes later.
* Platform behaviour that the program cannot decide (whether the store
  accepts a write, the conversion of a JSON number to a string or a boolean)
  is taken from a `Platform` value, over which the general theorems quantify.
* Console output is not part of the state.
-/

namespace Journal

/-! ## Strings -/

/-- A JavaScript string value: the list of its UTF-16 code units. -/
abbrev JSString := List Nat

/-- Code units of an ASCII literal of the program text. -/
def lit (s : String) : JSString := s.toList.map Char.toNat

/-- Decimal digits of a natural number, most significant first, onto `acc`. -/
def decimalAux : Nat → Nat → JSString → JSString
  | 0, _, acc => acc
  | fuel + 1, n, acc =>
    if n < 10 then (48 + n) :: acc
    else decimalAux fuel (n / 10) ((48 + n % 10) :: acc)

/-- The decimal numeral of a natural number. -/
def decimal (n : Nat) : JSString := decimalAux (n + 1) n []

/-- Number-to-string conversion of an integer, as a template literal or
`String(n)` performs it (integers below 10^21 in magnitude). -/
def intToString (i : Int) : JSString :=
  if i < 0 then 45 :: decimal i.natAbs else decimal i.toNat

/-- The first `n` code units of `fill` repeated. -/
def fillTo (fill : JSString) (n : Nat) : JSString :=
  (List.range n).map fun i => fill.getD (i % fill.length) 0

/-- The method `String.prototype.padStart(targetLength, fillString)`. -/
def padStart (s : JSString) (targetLength : Nat) (fill : JSString) : JSString :=
  if targetLength ≤ s.length then s
  else if fill = [] then s
  else fillTo fill (targetLength - s.length) ++ s

/-- White space and line terminators of ECMAScript, the code units that
`String.prototype.trim` strips. -/
def isWhiteSpace (u : Nat) : Bool :=
  u = 9 || u = 10 || u = 11 || u = 12 || u = 13 || u = 32 || u = 160 ||
  u = 5760 || (8192 ≤ u && u ≤ 8202) || u = 8232 || u = 8233 || u = 8239 ||
  u = 8287 || u = 12288 || u = 65279

/-- The method `String.prototype.trim`. -/
def trim (s : JSString) : JSString :=
  ((s.dropWhile isWhiteSpace).reverse.dropWhile isWhiteSpace).reverse

/-- Line breaks normalised, after a carriage return (`afterCR`) or not: a
carriage return becomes a line feed, and a line feed that follows a carriage
return is dropped. -/
def normalizeFrom : Bool → JSString → JSString
  | _, [] => []
  | afterCR, u :: rest =>
    if u = 13 then 10 :: normalizeFrom true rest
    else if u = 10 then
      if afterCR then normalizeFrom false rest else 10 :: normalizeFrom false rest
    else u :: normalizeFrom false rest

/-- The value a text area returns for the value assigned to it: every pair
of carriage return and line feed, and every other carriage return, is
replaced by a line feed. -/
def normalizeNewlines (s : JSString) : JSString := normalizeFrom false s

/-- Comparison of two strings by code units: negative, zero or positive.
This is `a.localeCompare(b)` on the strings the program compares, the keys
that passed the date filter (ASCII digits with hyphens at fixed places), on
which collation order and code unit order agree. -/
def localeCompare : JSString → JSString → Int
  | [], [] => 0
  | [], _ :: _ => -1
  | _ :: _, [] => 1
  | a :: as, b :: bs =>
    if a < b then -1 else if b < a then 1 else localeCompare as bs

/-- Insertion of `x` into a list sorted for `comparefn`, after every element
that does not compare greater than it. -/
def sortInsert {α : Type} (comparefn : α → α → Int) (x : α) : List α → List α
  | [] => [x]
  | y :: ys =>
    if comparefn y x ≤ 0 then y :: sortInsert comparefn x ys
    else x :: y :: ys

/-- The method `Array.prototype.sort(comparefn)`: a stable sort. -/
def sort {α : Type} (comparefn : α → α → Int) : List α → List α
  | [] => []
  | x :: xs => sortInsert comparefn x (sort comparefn xs)

/-! ## Date key utility -/

/-- The local-time components of a `Date` that the program reads. -/
structure JSDate where
  /-- Result of `getFullYear()`. -/
  fullYear : Int
  /-- Result of `getMonth()`, from 0 for January. -/
  month : Nat
  /-- Result of `getDate()`, the day of the month. -/
  date : Nat

/-- Function `getFormattedDate` of `script.js`. -/
def getFormattedDate (date : JSDate) : JSString :=
  let year := date.fullYear
  let month := padStart (decimal (date.month + 1)) 2 (lit "0")
  let day := padStart (decimal date.date) 2 (lit "0")
  intToString year ++ lit "-" ++ month ++ lit "-" ++ day

/-- A code unit that `\d` matches. -/
def isDigit (u : Nat) : Bool := 48 ≤ u && u ≤ 57

/-- Match of a whole string against a sequence of single-character classes. -/
def matchesAll : List (Nat → Bool) → JSString → Bool
  | [], [] => true
  | p :: ps, u :: us => p u && matchesAll ps us
  | _, _ => false

/-- The character `-`. -/
def isHyphen (u : Nat) : Bool := u = 45

/-- The test `/^\d{4}-\d{2}-\d{2}$/.test(key)` of `populatePreviousDaysList`. -/
def isDateKey (key : JSString) : Bool :=
  matchesAll [isDigit, isDigit, isDigit, isDigit, isHyphen, isDigit, isDigit, isHyphen,
    isDigit, isDigit] key

/-- Value of a run of decimal digits. -/
def digitsValue (s : JSString) : Nat := s.foldl (fun acc u => 10 * acc + (u - 48)) 0

/-- Year field of a date key: its first four code units as a number. -/
def yearOf (key : JSString) : Nat := digitsValue (key.take 4)

/-- Month field of a date key: code units 5 and 6 as a number. -/
def monthOf (key : JSString) : Nat := digitsValue ((key.drop 5).take 2)

/-- Day field of a date key: code units 8 and 9 as a number. -/
def dayOf (key : JSString) : Nat := digitsValue ((key.drop 8).take 2)

/-- Calendar order on date keys: earlier year, then month, then day. -/
def earlier (a b : JSString) : Prop :=
  yearOf a < yearOf b ∨
  (yearOf a = yearOf b ∧ (monthOf a < monthOf b ∨ (monthOf a = monthOf b ∧ dayOf a < dayOf b)))

/-! ## Record store -/

/-- The store `localStorage`: its key/value pairs in enumeration order. -/
abbrev Storage := List (JSString × JSString)

/-- The method `Storage.getItem`: `none` stands for `null`. -/
def Storage.getItem : Storage → JSString → Option JSString
  | [], _ => none
  | (k, v) :: rest, key => if k = key then some v else Storage.getItem rest key

/-- The method `Storage.setItem`, when the store accepts the write. -/
def Storage.setItem : Storage → JSString → JSString → Storage
  | [], key, value => [(key, value)]
  | (k, v) :: rest, key, value =>
    if k = key then (k, value) :: rest else (k, v) :: Storage.setItem rest key value

/-- The method `Storage.removeItem`. -/
def Storage.removeItem (st : Storage) (key : JSString) : Storage :=
  st.filter fun kv => kv.1 ≠ key

/-- The keys `Object.keys(localStorage)` enumerates. -/
def Storage.keys (st : Storage) : List JSString := st.map Prod.fst

/-- A store holds each key at most once. -/
def Storage.WellFormed (st : Storage) : Prop := st.keys.Nodup

/-! ## Serialised records: `JSON.stringify` and `JSON.parse` -/

/-- A value produced by `JSON.parse`. A number keeps its numeral; an object
keeps its members in the order of the text. -/
inductive JSON where
  | null
  | bool (b : Bool)
  | num (numeral : JSString)
  | str (s : JSString)
  | arr (items : List JSON)
  | obj (members : List (JSString × JSON))

/-- A leading surrogate code unit. -/
def isLeadSurrogate (u : Nat) : Bool := 55296 ≤ u && u ≤ 56319

/-- A trailing surrogate code unit. -/
def isTrailSurrogate (u : Nat) : Bool := 56320 ≤ u && u ≤ 57343

/-- Lower-case hexadecimal digit of a value below 16. -/
def hexDigit (n : Nat) : Nat := if n < 10 then 48 + n else 87 + n

/-- Escape of one code unit as a backslash, `u` and four hexadecimal digits. -/
def unicodeEscape (u : Nat) : JSString :=
  [92, 117, hexDigit (u / 4096 % 16), hexDigit (u / 256 % 16),
    hexDigit (u / 16 % 16), hexDigit (u % 16)]

/-- What `JSON.stringify` writes for a code point that is a single code
unit: the short escapes, the hexadecimal escape for the other control
characters and for an unpaired surrogate, and the unit itself otherwise. -/
def quoteUnit (u : Nat) : JSString :=
  if u = 8 then [92, 98]
  else if u = 9 then [92, 116]
  else if u = 10 then [92, 110]
  else if u = 12 then [92, 102]
  else if u = 13 then [92, 114]
  else if u = 34 then [92, 34]
  else if u = 92 then [92, 92]
  else if u < 32 || isLeadSurrogate u || isTrailSurrogate u then unicodeEscape u
  else [u]

/-- The characters `JSON.stringify` writes between the quotes of a string:
the string is read by code points, a surrogate pair being kept as it is. -/
def quoteBody : JSString → JSString
  | [] => []
  | u :: rest =>
    if isLeadSurrogate u && (rest.head?.map isTrailSurrogate).getD false then
      u :: (match rest with
        | [] => []
        | v :: rest2 => v :: quoteBody rest2)
    else quoteUnit u ++ quoteBody rest

/-- The JSON text of a string value. -/
def quote (s : JSString) : JSString := 34 :: (quoteBody s ++ [34])

/-- The object `dataToSave` that `saveData` assembles: the journal text and
the properties of its `tasks` object in property order. -/
structure DataToSave where
  journal : JSString
  tasks : List (JSString × Bool)
deriving DecidableEq

/-- The JSON text of a boolean. -/
def boolText (b : Bool) : JSString := if b then lit "true" else lit "false"

/-- The members of the `tasks` object as JSON text, separated by commas. -/
def stringifyTasks : List (JSString × Bool) → JSString
  | [] => []
  | (k, b) :: rest =>
    match rest with
    | [] => quote k ++ 58 :: boolText b
    | _ :: _ => quote k ++ 58 :: boolText b ++ 44 :: stringifyTasks rest

/-- The call `JSON.stringify(dataToSave)`. -/
def JSONstringify (d : DataToSave) : JSString :=
  lit "\x7b\"journal\":" ++ quote d.journal ++ lit ",\"tasks\":\x7b" ++
    stringifyTasks d.tasks ++ lit "\x7d\x7d"

/-- White space of the JSON grammar: tab, line feed, carriage return, space. -/
def isJSONWhiteSpace (u : Nat) : Bool := u = 9 || u = 10 || u = 13 || u = 32

/-- Input with leading JSON white space removed. -/
def skipWs (s : JSString) : JSString := s.dropWhile isJSONWhiteSpace

/-- Value of a hexadecimal digit, of either case. -/
def hexVal (u : Nat) : Option Nat :=
  if 48 ≤ u ∧ u ≤ 57 then some (u - 48)
  else if 97 ≤ u ∧ u ≤ 102 then some (u - 87)
  else if 65 ≤ u ∧ u ≤ 70 then some (u - 55)
  else none

/-- Code unit denoted by four hexadecimal digits. -/
def hex4 (a b c d : Nat) : Option Nat :=
  match hexVal a, hexVal b, hexVal c, hexVal d with
  | some x, some y, some z, some w => some (4096 * x + 256 * y + 16 * z + w)
  | _, _, _, _ => none

/-- Result of a string parse with one more code unit in front. -/
def consUnit (u : Nat) : Option (JSString × JSString) → Option (JSString × JSString)
  | some (s, rest) => some (u :: s, rest)
  | none => none

/-- The characters of a JSON string after its opening quote: the string
value and the input after the closing quote. -/
def parseChars : JSString → Option (JSString × JSString)
  | [] => none
  | u :: rest =>
    if u = 34 then some ([], rest)
    else if u = 92 then
      match rest with
      | [] => none
      | e :: rest2 =>
        if e = 34 then consUnit 34 (parseChars rest2)
        else if e = 92 then consUnit 92 (parseChars rest2)
        else if e = 47 then consUnit 47 (parseChars rest2)
        else if e = 98 then consUnit 8 (parseChars rest2)
        else if e = 102 then consUnit 12 (parseChars rest2)
        else if e = 110 then consUnit 10 (parseChars rest2)
        else if e = 114 then consUnit 13 (parseChars rest2)
        else if e = 116 then consUnit 9 (parseChars rest2)
        else if e = 117 then
          match rest2 with
          | a :: b :: c :: d :: rest3 =>
            match hex4 a b c d with
            | some v => consUnit v (parseChars rest3)
            | none => none
          | _ => none
        else none
    else if u < 32 then none
    else consUnit u (parseChars rest)

/-- A non-empty run of digits at the head of the input, and what follows. -/
def parseDigits (s : JSString) : Option (JSString × JSString) :=
  if s.takeWhile isDigit = [] then none
  else some (s.takeWhile isDigit, s.dropWhile isDigit)

/-- The integer part of a JSON number: a zero, or digits not starting with
zero. -/
def parseInt : JSString → Option (JSString × JSString)
  | [] => none
  | d :: rest =>
    if d = 48 then some ([48], rest)
    else if isDigit d then some (d :: rest.takeWhile isDigit, rest.dropWhile isDigit)
    else none

/-- The optional fraction of a JSON number. -/
def parseFrac : JSString → Option (JSString × JSString)
  | [] => some ([], [])
  | u :: rest =>
    if u = 46 then
      match parseDigits rest with
      | some (ds, r) => some (46 :: ds, r)
      | none => none
    else some ([], u :: rest)

/-- The optional exponent of a JSON number. -/
def parseExp : JSString → Option (JSString × JSString)
  | [] => some ([], [])
  | u :: rest =>
    if u = 101 ∨ u = 69 then
      match rest with
      | [] => none
      | g :: rest2 =>
        if g = 43 ∨ g = 45 then
          match parseDigits rest2 with
          | some (ds, r) => some (u :: g :: ds, r)
          | none => none
        else
          match parseDigits rest with
          | some (ds, r) => some (u :: ds, r)
          | none => none
    else some ([], u :: rest)

/-- A JSON number at the head of the input: its numeral and what follows. -/
def parseNumber (s : JSString) : Option (JSString × JSString) :=
  let signed : JSString × JSString :=
    match s with
    | [] => ([], [])
    | u :: rest => if u = 45 then ([45], rest) else ([], u :: rest)
  match parseInt signed.2 with
  | none => none
  | some (i, r1) =>
    match parseFrac r1 with
    | none => none
    | some (f, r2) =>
      match parseExp r2 with
      | none => none
      | some (e, r3) => some (signed.1 ++ i ++ f ++ e, r3)

/-- The input after `word`, when the input starts with it. -/
def expect (word : JSString) (s : JSString) : Option JSString :=
  if word.isPrefixOf s then some (s.drop word.length) else none

mutual
/-- A JSON value at the head of the input, after optional white space: the
value and the input that follows it. -/
def parseValue : Nat → JSString → Option (JSON × JSString)
  | 0, _ => none
  | fuel + 1, s =>
    match skipWs s with
    | [] => none
    | u :: rest =>
      if u = 123 then
        match skipWs rest with
        | [] => none
        | c :: rest2 =>
          if c = 125 then some (JSON.obj [], rest2)
          else
            match parseMembers fuel (c :: rest2) with
            | some (ms, r) => some (JSON.obj ms, r)
            | none => none
      else if u = 91 then
        match skipWs rest with
        | [] => none
        | c :: rest2 =>
          if c = 93 then some (JSON.arr [], rest2)
          else
            match parseElements fuel (c :: rest2) with
            | some (vs, r) => some (JSON.arr vs, r)
            | none => none
      else if u = 34 then
        match parseChars rest with
        | some (str, r) => some (JSON.str str, r)
        | none => none
      else if u = 116 then
        match expect (lit "rue") rest with
        | some r => some (JSON.bool true, r)
        | none => none
      else if u = 102 then
        match expect (lit "alse") rest with
        | some r => some (JSON.bool false, r)
        | none => none
      else if u = 110 then
        match expect (lit "ull") rest with
        | some r => some (JSON.null, r)
        | none => none
      else
        match parseNumber (u :: rest) with
        | some (numeral, r) => some (JSON.num numeral, r)
        | none => none
/-- The elements of an array from its first value to the closing bracket. -/
def parseElements : Nat → JSString → Option (List JSON × JSString)
  | 0, _ => none
  | fuel + 1, s =>
    match parseValue fuel s with
    | none => none
    | some (v, r) =>
      match skipWs r with
      | [] => none
      | c :: rest =>
        if c = 44 then
          match parseElements fuel rest with
          | some (vs, r2) => some (v :: vs, r2)
          | none => none
        else if c = 93 then some ([v], rest)
        else none
/-- The members of an object from its first key to the closing brace. -/
def parseMembers : Nat → JSString → Option (List (JSString × JSON) × JSString)
  | 0, _ => none
  | fuel + 1, s =>
    match skipWs s with
    | [] => none
    | q :: rest =>
      if q = 34 then
        match parseChars rest with
        | none => none
        | some (key, r) =>
          match skipWs r with
          | [] => none
          | c :: rest2 =>
            if c = 58 then
              match parseValue fuel rest2 with
              | none => none
              | some (v, r2) =>
                match skipWs r2 with
                | [] => none
                | d :: rest3 =>
                  if d = 44 then
                    match parseMembers fuel rest3 with
                    | some (ms, r3) => some ((key, v) :: ms, r3)
                    | none => none
                  else if d = 125 then some ([(key, v)], rest3)
                  else none
            else none
      else none
end

/-- The call `JSON.parse(text)`: `none` stands for a thrown `SyntaxError`.
The recursion budget exceeds what a text of this length can use. -/
def JSONparse (text : JSString) : Option JSON :=
  match parseValue (2 * text.length + 1) text with
  | some (v, rest) => if skipWs rest = [] then some v else none
  | none => none

/-! ## Values read back from parsed data -/

/-- Behaviour of the platform that the program does not decide. -/
structure Platform where
  /-- Whether `setItem(key, value)` on this store succeeds; otherwise it
  throws (quota exceeded, storage disabled). -/
  accepts : Storage → JSString → JSString → Bool
  /-- String conversion of the number a JSON numeral denotes. -/
  numberToString : JSString → JSString
  /-- Truthiness of the number a JSON numeral denotes. -/
  numberToBoolean : JSString → Bool

/-- A sample platform for evaluating concrete scenarios: the store accepts
every write; the conversions of numbers are those of numerals that are
written the way the platform prints them. -/
def lenient : Platform :=
  { accepts := fun _ _ _ => true
    numberToString := fun numeral => numeral
    numberToBoolean := fun numeral =>
      (numeral.takeWhile fun u => u ≠ 101 && u ≠ 69).any fun u => 49 ≤ u && u ≤ 57 }

/-- Own property `key` of the members of an object; a later member with the
same key replaces an earlier one. -/
def lookupProp : List (JSString × JSON) → JSString → Option JSON
  | [], _ => none
  | (k, v) :: rest, key =>
    match lookupProp rest key with
    | some w => some w
    | none => if k = key then some v else none

/-- Property read `value[key]` on a parsed value other than `null`, for the
property names the program reads (`journal`, `tasks`, the task ids), none of
which is a property of a string, number, boolean or array or is inherited
by an object: `none` stands for `undefined`. -/
def getProp : JSON → JSString → Option JSON
  | JSON.obj members, key => lookupProp members key
  | _, _ => none

/-- Truthiness of a parsed value. -/
def toBoolean (P : Platform) : JSON → Bool
  | JSON.null => false
  | JSON.bool b => b
  | JSON.num numeral => P.numberToBoolean numeral
  | JSON.str s => !s.isEmpty
  | JSON.arr _ => true
  | JSON.obj _ => true

mutual
/-- String conversion of a parsed value, as assigning it to the `value` of
a text field performs it. -/
def toJSString (P : Platform) : JSON → JSString
  | JSON.null => lit "null"
  | JSON.bool b => boolText b
  | JSON.num numeral => P.numberToString numeral
  | JSON.str s => s
  | JSON.arr items => joinItems P items
  | JSON.obj _ => lit "[object Object]"
/-- The elements of an array joined by commas, `null` giving nothing. -/
def joinItems (P : Platform) : List JSON → JSString
  | [] => []
  | v :: vs =>
    (match v with
      | JSON.null => []
      | w => toJSString P w) ++
    (match vs with
      | [] => []
      | _ :: _ => 44 :: joinItems P vs)
end

/-! ## Controller state -/

/-- An entry of the hard-coded task catalog. -/
structure Task where
  id : JSString
  text : JSString
deriving DecidableEq

/-- The constant `dailyTasks` of `script.js`. -/
def dailyTasks : List Task :=
  [ { id := lit "task-exercise", text := lit "Exercise for 30 minutes" },
    { id := lit "task-read", text := lit "Read a book/article" },
    { id := lit "task-hydrate", text := lit "Drink 8 glasses of water" },
    { id := lit "task-plan", text := lit "Plan tomorrow\x27s main task" } ]

/-- A row of the checklist: the checkbox and its label. -/
structure TaskItem where
  /-- Attribute `id` of the checkbox. -/
  id : JSString
  /-- Attribute `data-task-id` of the checkbox. -/
  taskId : JSString
  /-- Whether the checkbox is checked. -/
  checked : Bool
  /-- Attribute `for` of the label. -/
  labelFor : JSString
  /-- Text of the label. -/
  labelText : JSString
deriving DecidableEq

/-- A date row of the sidebar list. -/
structure Row where
  textContent : JSString
  /-- Attribute `data-date`; a click on the row loads this date. -/
  date : JSString
  /-- Whether the row carries the class `active`. -/
  active : Bool
deriving DecidableEq

/-- A pending timer: its identifier and the time at which it is due. Every
timer of this program runs `saveData`. -/
structure Timer where
  id : Nat
  due : Nat
deriving DecidableEq

/-- A mutation of the store that took effect. -/
inductive StoreOp where
  | setItem (key value : JSString)
  | removeItem (key : JSString)
deriving DecidableEq

/-- State of the page: the variables of the controller, the elements it
reads and writes, the store, the timers of the event loop, and a record
of the calls of `saveData` and of the store mutations made so far. -/
structure State where
  /-- Variable `currentlyEditingDate`, the bound date key. -/
  currentlyEditingDate : JSString
  /-- Variable `saveTimeout`: `none` stands for `undefined`. -/
  saveTimeout : Option Nat
  /-- Text of the element `display-date`. -/
  displayDate : JSString
  /-- Value of the text field `journal-text`. -/
  journalText : JSString
  /-- Children of the element `task-list`. -/
  taskList : List TaskItem
  /-- Text of the element `save-status`. -/
  statusText : JSString
  /-- Style colour of the element `save-status`. -/
  statusColor : JSString
  /-- Date rows of the element `previous-days-list`. -/
  previousDays : List Row
  /-- Style `display` of the placeholder row `no-entries`. -/
  noEntriesDisplay : JSString
  /-- The store `localStorage`. -/
  localStorage : Storage
  /-- Current time in milliseconds. -/
  now : Nat
  /-- Pending timers. -/
  timers : List Timer
  /-- Identifier the next timer receives. -/
  nextTimerId : Nat
  /-- Number of calls of `saveData` so far. -/
  saveCalls : Nat
  /-- Store mutations so far, oldest first. -/
  storeOps : List StoreOp
deriving DecidableEq

/-! ## Controller functions -/

/-- Function `showStatus`. -/
def showStatus (message : JSString) (isError : Bool) (s : State) : State :=
  { s with statusText := message, statusColor := if isError then lit "red" else lit "green" }

/-- Function `clearStatus`. -/
def clearStatus (s : State) : State :=
  { s with statusText := [] }

/-- Function `updatePreviousDaysHighlight`. -/
def updatePreviousDaysHighlight (s : State) : State :=
  { s with previousDays := s.previousDays.map fun li =>
      { li with active := decide (li.date = s.currentlyEditingDate) } }

/-- The array `dateKeys` of `populatePreviousDaysList`. -/
def dateKeys (store : Storage) : List JSString :=
  sort (fun a b => localeCompare b a) (store.keys.filter isDateKey)

/-- Function `populatePreviousDaysList`. -/
def populatePreviousDaysList (s : State) : State :=
  let keys := dateKeys s.localStorage
  if keys.length > 0 then
    { s with
      noEntriesDisplay := lit "none"
      previousDays := keys.map fun dateString =>
        { textContent := dateString, date := dateString, active := false } }
  else
    { s with noEntriesDisplay := lit "block", previousDays := [] }

/-- Function `renderTasks`. -/
def renderTasks (dateString : JSString) (s : State) : State :=
  { s with taskList := dailyTasks.map fun task =>
      { id := task.id ++ lit "-" ++ dateString
        taskId := task.id
        checked := false
        labelFor := task.id ++ lit "-" ++ dateString
        labelText := task.text } }

/-- The expression `value || fallback` on a property that was read: the
value when it is defined and truthy, the fallback otherwise. -/
def orDefault (P : Platform) (value : Option JSON) (fallback : JSON) : JSON :=
  match value with
  | some v => if toBoolean P v then v else fallback
  | none => fallback

/-- The values `journalEntry` and `taskStates` that `loadDataForDate`
computes from `savedData`, the result of `getItem`. A thrown error inside
the `try` block (the text does not parse, or it parses to `null`, whose
properties cannot be read) leaves both at their defaults. -/
def readSaved (P : Platform) (savedData : Option JSString) : JSON × JSON :=
  match savedData with
  | none => (JSON.str [], JSON.obj [])
  | some text =>
    if text = [] then (JSON.str [], JSON.obj [])
    else
      match JSONparse text with
      | none => (JSON.str [], JSON.obj [])
      | some JSON.null => (JSON.str [], JSON.obj [])
      | some parsedData =>
        (orDefault P (getProp parsedData (lit "journal")) (JSON.str []),
          orDefault P (getProp parsedData (lit "tasks")) (JSON.obj []))

/-- The assignment `checkbox.checked = taskStates[taskId] || false`. -/
def checkedFrom (P : Platform) (taskStates : JSON) (taskId : JSString) : Bool :=
  match getProp taskStates taskId with
  | some v => toBoolean P v
  | none => false

/-- Function `loadDataForDate`. -/
def loadDataForDate (P : Platform) (dateString : JSString) (s : State) : State :=
  if s.currentlyEditingDate = dateString ∧ s.journalText ≠ [] then s
  else
    let s1 := { s with currentlyEditingDate := dateString, displayDate := dateString }
    let s2 := renderTasks dateString s1
    let savedData := s2.localStorage.getItem dateString
    let saved := readSaved P savedData
    let s3 := { s2 with journalText := normalizeNewlines (toJSString P saved.1) }
    let s4 := { s3 with taskList := s3.taskList.map fun checkbox =>
      { checkbox with checked := checkedFrom P saved.2 checkbox.taskId } }
    updatePreviousDaysHighlight (clearStatus s4)

/-- The assignment `tasks[taskId] = checked` on the properties of an object:
an existing property keeps its place, a new one comes last. -/
def setProp : List (JSString × Bool) → JSString → Bool → List (JSString × Bool)
  | [], key, value => [(key, value)]
  | (k, v) :: rest, key, value =>
    if k = key then (k, value) :: rest else (k, v) :: setProp rest key value

/-- The object `dataToSave` that `saveData` assembles from the page. -/
def dataToSave (s : State) : DataToSave :=
  { journal := s.journalText
    tasks := s.taskList.foldl (fun tasks checkbox => setProp tasks checkbox.taskId checkbox.checked) [] }

/-- The constant `isEmpty` of `saveData`. -/
def isEmpty (d : DataToSave) : Bool :=
  (trim d.journal).isEmpty && d.tasks.all fun kv => !kv.2

/-- Function `saveData`. -/
def saveData (P : Platform) (s0 : State) : State :=
  let s := { s0 with saveCalls := s0.saveCalls + 1 }
  if s.currentlyEditingDate = [] then s
  else
    let d := dataToSave s
    if !isEmpty d then
      if P.accepts s.localStorage s.currentlyEditingDate (JSONstringify d) then
        let s1 := { s with
          localStorage := s.localStorage.setItem s.currentlyEditingDate (JSONstringify d)
          storeOps := s.storeOps ++ [StoreOp.setItem s.currentlyEditingDate (JSONstringify d)] }
        updatePreviousDaysHighlight (populatePreviousDaysList (showStatus (lit "Saved!") false s1))
      else showStatus (lit "Error saving!") true s
    else
      match s.localStorage.getItem s.currentlyEditingDate with
      | none => clearStatus s
      | some stored =>
        if stored = [] then clearStatus s
        else
          let s1 := { s with
            localStorage := s.localStorage.removeItem s.currentlyEditingDate
            storeOps := s.storeOps ++ [StoreOp.removeItem s.currentlyEditingDate] }
          populatePreviousDaysList (showStatus (lit "Entry removed (empty).") false s1)

/-- The call `clearTimeout(id)`; an identifier that is not pending, or
`undefined`, cancels nothing. -/
def clearTimeout (id : Option Nat) (s : State) : State :=
  match id with
  | none => s
  | some i => { s with timers := s.timers.filter fun t => t.id ≠ i }

/-- Function `scheduleSave`: the call `setTimeout(saveData, 800)` adds a
timer due 800 ms from now and returns its identifier. -/
def scheduleSave (s : State) : State :=
  let s1 := clearStatus (clearTimeout s.saveTimeout s)
  { s1 with
    timers := s1.timers ++ [{ id := s1.nextTimerId, due := s1.now + 800 }]
    nextTimerId := s1.nextTimerId + 1
    saveTimeout := some s1.nextTimerId }

/-! ## Event loop -/

/-- The pending timer that is due first (the oldest among equals). -/
def nextDue : List Timer → Option Timer
  | [] => none
  | t :: rest =>
    match nextDue rest with
    | none => some t
    | some r => if r.due < t.due then some r else some t

/-- Runs the timers that are due at or before time `t`, earliest first, each
at its due time, and moves the clock to `t`. -/
def runTimers (P : Platform) : Nat → Nat → State → State
  | 0, t, s => { s with now := max s.now t }
  | fuel + 1, t, s =>
    match nextDue s.timers with
    | none => { s with now := max s.now t }
    | some tm =>
      if tm.due ≤ t then
        runTimers P fuel t
          (saveData P { s with timers := s.timers.filter (fun x => x.id ≠ tm.id), now := max s.now tm.due })
      else { s with now := max s.now t }

/-- Lets time pass until `t`. Callbacks start no timer, so as many rounds as
there are pending timers run them all. -/
def advanceTo (P : Platform) (t : Nat) (s : State) : State :=
  runTimers P s.timers.length t s

/-- Something the user does. -/
inductive Action where
  /-- Edits the journal text, which then reads `text` (event `input`). -/
  | input (text : JSString)
  /-- Toggles the checkbox at a position of the checklist (event `change`). -/
  | toggle (index : Nat)
  /-- Clicks the date row at a position of the sidebar. -/
  | click (index : Nat)
  /-- Does nothing: time passes. -/
  | idle
deriving DecidableEq

/-- The checklist with the checkbox at `index` toggled. -/
def toggleAt : Nat → List TaskItem → List TaskItem
  | _, [] => []
  | 0, c :: cs => { c with checked := !c.checked } :: cs
  | index + 1, c :: cs => c :: toggleAt index cs

/-- The listener that an action triggers, after the change the action
itself makes to the page. -/
def perform (P : Platform) (a : Action) (s : State) : State :=
  match a with
  | Action.input text => scheduleSave { s with journalText := text }
  | Action.toggle index =>
    if index < s.taskList.length then scheduleSave { s with taskList := toggleAt index s.taskList }
    else s
  | Action.click index =>
    match s.previousDays.get? index with
    | some li => loadDataForDate P li.date s
    | none => s
  | Action.idle => s

/-- An action at time `t`: the timers due by then run first. -/
def step (P : Platform) (s : State) (e : Nat × Action) : State :=
  perform P e.2 (advanceTo P e.1 s)

/-- A sequence of timed actions. -/
def run (P : Platform) (s : State) (es : List (Nat × Action)) : State :=
  es.foldl (step P) s

/-- The page before the `DOMContentLoaded` listener runs, with the store
and the clock it finds. -/
def blankPage (store : Storage) (now : Nat) : State :=
  { currentlyEditingDate := []
    saveTimeout := none
    displayDate := []
    journalText := []
    taskList := []
    statusText := []
    statusColor := []
    previousDays := []
    noEntriesDisplay := []
    localStorage := store
    now := now
    timers := []
    nextTimerId := 1
    saveCalls := 0
    storeOps := [] }

/-- Initialisation: the body of the `DOMContentLoaded` listener, on the page
with store `store` at date `today`. -/
def initialise (P : Platform) (store : Storage) (now : Nat) (today : JSDate) : State :=
  let todayString := getFormattedDate today
  loadDataForDate P todayString (populatePreviousDaysList (blankPage store now))

/-! ## Specification vocabulary and sample pages -/

instance (st : Storage) : Decidable st.WellFormed :=
  inferInstanceAs (Decidable (st.keys.Nodup))

/-- A page just opened on a store whose entry for 2024-03-10 is not JSON. -/
def pageWithBrokenEntry : State :=
  blankPage [(lit "2024-03-10", lit "\x7boops")] 0

/-- A page opened on 2024-03-10 on a store whose entry for that date is not
JSON, after the user has typed a word into the journal at time 0. -/
def typedOverBrokenEntry : State :=
  run lenient (initialise lenient [(lit "2024-03-10", lit "\x7boops")] 0 ⟨2024, 2, 10⟩)
    [(0, Action.input (lit "abc"))]

/-- A page just opened on a store whose entry for 2024-03-10 has a journal
text, a checked catalog task and a checked task that is not in the catalog. -/
def pageWithEntry : State :=
  blankPage [(lit "2024-03-10",
    lit "\x7b\"journal\":\"hi\",\"tasks\":\x7b\"task-read\":true,\"task-gone\":true\x7d\x7d")] 0

/-- A page opened on an empty store on 2024-03-10, in which the user has
typed a single space into the journal field. -/
def pageWithSpace : State :=
  { initialise lenient [] 0 ⟨2024, 2, 10⟩ with journalText := lit " " }

/-- A page opened on 2024-03-10 and left untouched, on a store that holds
the empty text under that date. -/
def pageOverEmptyText : State :=
  initialise lenient [(lit "2024-03-10", [])] 0 ⟨2024, 2, 10⟩

/-- A page opened on an empty store on 2024-03-10, in which the user has
typed a word and checked the third task. -/
def pageWithContent : State :=
  { initialise lenient [] 0 ⟨2024, 2, 10⟩ with
    journalText := lit "hello"
    taskList := toggleAt 2 (initialise lenient [] 0 ⟨2024, 2, 10⟩).taskList }

/-- The parsed value of a serialised record: an object with the members
`journal` and `tasks`, the latter an object of booleans. -/
def recordValue (d : DataToSave) : JSON :=
  JSON.obj [(lit "journal", JSON.str d.journal),
    (lit "tasks", JSON.obj (d.tasks.map fun kv => (kv.1, JSON.bool kv.2)))]

/-- A record with a line break in the journal and two true flags. -/
def sampleRecord : DataToSave :=
  { journal := lit "hi\n"
    tasks := [(lit "task-exercise", true), (lit "task-read", false), (lit "task-hydrate", true),
      (lit "task-plan", false)] }

/-- An action that edits the entry and so reaches `scheduleSave`: a change
of the journal text, or the toggle of a checkbox of the rendered catalog. -/
def Action.isEdit : Action → Bool
  | Action.input _ => true
  | Action.toggle index => decide (index < dailyTasks.length)
  | _ => false

/-- Timed actions that follow time `t` in order, each less than 800 ms after
the one before it. -/
def closelySpaced : Nat → List (Nat × Action) → Prop
  | _, [] => True
  | t, e :: es => t ≤ e.1 ∧ e.1 < t + 800 ∧ closelySpaced e.1 es

/-- Time of the last of the timed actions `e :: es`. -/
def lastTime : Nat × Action → List (Nat × Action) → Nat
  | e, [] => e.1
  | _, x :: xs => lastTime x xs

/-- What holds of the page from initialisation on: a date is bound, the
checklist is the rendered catalog, every sidebar row carries a date key, and
the only timer that can be pending is the one `saveTimeout` names. -/
structure Ready (s : State) : Prop where
  bound : s.currentlyEditingDate ≠ []
  checklist : s.taskList.map TaskItem.taskId = dailyTasks.map Task.id
  rows : ∀ li ∈ s.previousDays, isDateKey li.date = true
  slot : ∀ tm ∈ s.timers, s.saveTimeout = some tm.id
  single : s.timers.length ≤ 1

/-- A page opened on an empty store on 2024-03-10 at time 0. -/
def freshPage : State := initialise lenient [] 0 ⟨2024, 2, 10⟩

/-- Three edits 300 and 400 ms apart: two changes of the journal text and the
toggle of the second checkbox. -/
def threeEdits : List (Nat × Action) :=
  [(0, Action.input (lit "h")), (300, Action.input (lit "hi")), (700, Action.toggle 1)]

/-- The fresh page after one edit that types a single space, and 800 ms. -/
def afterBlankEdit : State :=
  run lenient freshPage [(0, Action.input (lit " ")), (800, Action.idle)]

/-- A page opened on 2024-03-10 on a store that holds a record for
2024-03-09. -/
def pageWithYesterday : State :=
  initialise lenient
    [(lit "2024-03-09", JSONstringify ⟨lit "yesterday", [(lit "task-exercise", false),
      (lit "task-read", false), (lit "task-hydrate", false), (lit "task-plan", false)]⟩)]
    0 ⟨2024, 2, 10⟩

/-- The user types into the journal of 2024-03-10 at time 0, clicks the
sidebar row of 2024-03-09 at 100 ms, and time passes to 900 ms. -/
def switchWhileSavePending : State :=
  run lenient pageWithYesterday
    [(0, Action.input (lit "hello")), (100, Action.click 0), (900, Action.idle)]

set_option maxRecDepth 20000

/-! ## Date key utility: properties -/

theorem decimal_one_digit (n : Nat) (h : n < 10) : decimal n = [48 + n] := by
  simp [decimal, decimalAux, h]

theorem decimal_two_digits (n : Nat) (h1 : 10 ≤ n) (h2 : n < 100) :
    decimal n = [48 + n / 10, 48 + n % 10] := by
  obtain ⟨k, rfl⟩ : ∃ k, n = k + 1 := ⟨n - 1, by omega⟩
  have h3 : ¬ (k + 1 < 10) := by omega
  have h4 : (k + 1) / 10 < 10 := by omega
  simp [decimal, decimalAux, h3, h4]

theorem decimal_four_digits (n : Nat) (h1 : 1000 ≤ n) (h2 : n < 10000) :
    decimal n = [48 + n / 1000, 48 + n / 100 % 10, 48 + n / 10 % 10, 48 + n % 10] := by
  obtain ⟨k, rfl⟩ : ∃ k, n = k + 3 := ⟨n - 3, by omega⟩
  have h3 : ¬ (k + 3 < 10) := by omega
  have h4 : ¬ ((k + 3) / 10 < 10) := by omega
  have h5 : ¬ ((k + 3) / 10 / 10 < 10) := by omega
  have h6 : (k + 3) / 10 / 10 / 10 < 10 := by omega
  have e1 : (k + 3) / 10 / 10 / 10 = (k + 3) / 1000 := by omega
  have e2 : (k + 3) / 10 / 10 % 10 = (k + 3) / 100 % 10 := by omega
  simp only [decimal]
  rw [show k + 3 + 1 = (k + 1) + 1 + 1 + 1 from rfl]
  simp [decimalAux, h3, h4, h5, h6, e1, e2]
  intro h7
  omega

theorem padStart_two (n : Nat) (h : n < 100) :
    padStart (decimal n) 2 (lit "0") = [48 + n / 10, 48 + n % 10] := by
  by_cases h1 : n < 10
  · rw [decimal_one_digit n h1]
    have : n / 10 = 0 := by omega
    have h5 : n % 10 = n := by omega
    simp [padStart, fillTo, lit, this, h5, List.range_succ]
  · rw [decimal_two_digits n (by omega) h]
    simp [padStart]

theorem getFormattedDate_eq (y m d : Nat) (hy1 : 1000 ≤ y) (hy2 : y ≤ 9999)
    (hm : m < 99) (hd : d < 100) :
    getFormattedDate ⟨(y : Int), m, d⟩ =
      [48 + y / 1000, 48 + y / 100 % 10, 48 + y / 10 % 10, 48 + y % 10, 45,
        48 + (m + 1) / 10, 48 + (m + 1) % 10, 45, 48 + d / 10, 48 + d % 10] := by
  have hneg : ¬ ((y : Int) < 0) := by omega
  simp only [getFormattedDate, intToString, hneg, if_false, Int.toNat_ofNat]
  rw [decimal_four_digits y hy1 (by omega), padStart_two (m + 1) (by omega), padStart_two d hd]
  simp [lit]

/-- C6 (amended). For every date with a year from 1000 to 9999, a month `m`
from 1 to 12 (so `getMonth()` gives `m - 1`) and a day `d` from 1 to 31,
`getFormattedDate` returns a string of exactly 10 code units that the date
pattern of the sidebar scan accepts, and whose year, month and day fields
are `y`, `m` and `d`. -/
theorem getFormattedDate_fields (y m d : Nat) (hy1 : 1000 ≤ y) (hy2 : y ≤ 9999)
    (hm1 : 1 ≤ m) (hm2 : m ≤ 12) (hd1 : 1 ≤ d) (hd2 : d ≤ 31) :
    (getFormattedDate ⟨(y : Int), m - 1, d⟩).length = 10 ∧
    isDateKey (getFormattedDate ⟨(y : Int), m - 1, d⟩) = true ∧
    yearOf (getFormattedDate ⟨(y : Int), m - 1, d⟩) = y ∧
    monthOf (getFormattedDate ⟨(y : Int), m - 1, d⟩) = m ∧
    dayOf (getFormattedDate ⟨(y : Int), m - 1, d⟩) = d := by
  rw [getFormattedDate_eq y (m - 1) d hy1 hy2 (by omega) (by omega)]
  have hm : m - 1 + 1 = m := by omega
  rw [hm]
  refine ⟨rfl, ?_, ?_, ?_, ?_⟩
  · simp only [isDateKey, matchesAll, isDigit, isHyphen, Bool.and_eq_true, decide_eq_true_eq,
      and_true, true_and, Bool.and_true, Bool.true_and, decide_True]
    omega
  · simp only [yearOf, digitsValue, List.take, List.foldl]
    omega
  · simp only [monthOf, digitsValue, List.take, List.drop, List.foldl]
    omega
  · simp only [dayOf, digitsValue, List.take, List.drop, List.foldl]
    omega

/-- Witness for C6 (amended): 5 January 2024. -/
theorem getFormattedDate_fields_witness :
    1000 ≤ 2024 ∧ 2024 ≤ 9999 ∧ 1 ≤ 1 ∧ 1 ≤ 12 ∧ 1 ≤ 5 ∧ 5 ≤ 31 ∧
    (getFormattedDate ⟨((2024 : Nat) : Int), 1 - 1, 5⟩).length = 10 ∧
    isDateKey (getFormattedDate ⟨((2024 : Nat) : Int), 1 - 1, 5⟩) = true ∧
    yearOf (getFormattedDate ⟨((2024 : Nat) : Int), 1 - 1, 5⟩) = 2024 ∧
    monthOf (getFormattedDate ⟨((2024 : Nat) : Int), 1 - 1, 5⟩) = 1 ∧
    dayOf (getFormattedDate ⟨((2024 : Nat) : Int), 1 - 1, 5⟩) = 5 :=
  ⟨by decide, by decide, by decide, by decide, by decide, by decide,
    getFormattedDate_fields 2024 1 5 (by decide) (by decide) (by decide) (by decide) (by decide)
      (by decide)⟩

/-- C6 as stated fails: for 1 January of the year 999 `getFormattedDate`
returns the 9 code units 999-01-01, which the date pattern rejects. -/
theorem getFormattedDate_year_999 :
    getFormattedDate ⟨999, 0, 1⟩ = lit "999-01-01" ∧
    (getFormattedDate ⟨999, 0, 1⟩).length ≠ 10 ∧
    isDateKey (getFormattedDate ⟨999, 0, 1⟩) = false := by decide

/-! ## Sorting: properties -/

theorem sortInsert_perm {α : Type} (c : α → α → Int) (x : α) (l : List α) :
    (sortInsert c x l).Perm (x :: l) := by
  induction l with
  | nil => simp [sortInsert]
  | cons y ys ih =>
    simp only [sortInsert]
    split
    · exact (List.Perm.cons y ih).trans (List.Perm.swap x y ys)
    · exact List.Perm.refl _

theorem sort_perm {α : Type} (c : α → α → Int) (l : List α) : (sort c l).Perm l := by
  induction l with
  | nil => simp [sort]
  | cons x xs ih =>
    simp only [sort]
    exact (sortInsert_perm c x _).trans (List.Perm.cons x ih)

theorem sortInsert_pairwise {α : Type} (c : α → α → Int)
    (htot : ∀ a b, c a b ≤ 0 ∨ c b a ≤ 0)
    (htrans : ∀ a b d, c a b ≤ 0 → c b d ≤ 0 → c a d ≤ 0)
    (x : α) (l : List α) (h : l.Pairwise fun a b => c a b ≤ 0) :
    (sortInsert c x l).Pairwise fun a b => c a b ≤ 0 := by
  induction l with
  | nil => simp [sortInsert]
  | cons y ys ih =>
    rw [List.pairwise_cons] at h
    simp only [sortInsert]
    split
    · rename_i hyx
      rw [List.pairwise_cons]
      refine ⟨?_, ih h.2⟩
      intro z hz
      rcases List.mem_cons.mp ((sortInsert_perm c x ys).mem_iff.mp hz) with rfl | hz1
      · exact hyx
      · exact h.1 z hz1
    · rename_i hyx
      have hxy : c x y ≤ 0 := (htot x y).resolve_right hyx
      rw [List.pairwise_cons]
      refine ⟨?_, List.pairwise_cons.mpr h⟩
      intro z hz
      rcases List.mem_cons.mp hz with rfl | hz1
      · exact hxy
      · exact htrans x y z hxy (h.1 z hz1)

theorem sort_pairwise {α : Type} (c : α → α → Int)
    (htot : ∀ a b, c a b ≤ 0 ∨ c b a ≤ 0)
    (htrans : ∀ a b d, c a b ≤ 0 → c b d ≤ 0 → c a d ≤ 0) (l : List α) :
    (sort c l).Pairwise fun a b => c a b ≤ 0 := by
  induction l with
  | nil => simp [sort]
  | cons x xs ih =>
    simp only [sort]
    exact sortInsert_pairwise c htot htrans x _ ih

theorem localeCompare_total (a b : JSString) :
    localeCompare a b ≤ 0 ∨ localeCompare b a ≤ 0 := by
  induction a generalizing b with
  | nil => cases b <;> simp [localeCompare]
  | cons x xs ih =>
    cases b with
    | nil => simp [localeCompare]
    | cons y ys =>
      simp only [localeCompare]
      by_cases h1 : x < y
      · simp [h1]
      · by_cases h2 : y < x
        · simp [h1, h2]
        · simp only [h1, h2, if_false]
          exact ih ys

theorem localeCompare_trans (a b d : JSString)
    (h1 : localeCompare a b ≤ 0) (h2 : localeCompare b d ≤ 0) : localeCompare a d ≤ 0 := by
  induction a generalizing b d with
  | nil => cases d <;> simp [localeCompare]
  | cons x xs ih =>
    cases b with
    | nil => simp [localeCompare] at h1
    | cons y ys =>
      cases d with
      | nil => simp [localeCompare] at h2
      | cons z zs =>
        simp only [localeCompare] at h1 h2 ⊢
        by_cases hxy : x < y
        · by_cases hyz : y < z
          · have : x < z := by omega
            simp [this]
          · by_cases hzy : z < y
            · simp [hyz, hzy] at h2
            · have : x < z := by omega
              simp [this]
        · by_cases hyx : y < x
          · simp [hxy, hyx] at h1
          · simp only [hxy, hyx, if_false] at h1
            have hxy' : x = y := by omega
            subst hxy'
            by_cases hyz : x < z
            · simp [hyz]
            · by_cases hzy : z < x
              · simp [hyz, hzy] at h2
              · simp only [hyz, hzy, if_false] at h2 ⊢
                exact ih ys zs h1 h2

theorem localeCompare_antisymm (a b : JSString)
    (h1 : localeCompare a b ≤ 0) (h2 : localeCompare b a ≤ 0) : a = b := by
  induction a generalizing b with
  | nil => cases b <;> simp [localeCompare] at h2 ⊢
  | cons x xs ih =>
    cases b with
    | nil => simp [localeCompare] at h1
    | cons y ys =>
      simp only [localeCompare] at h1 h2
      by_cases hxy : x < y
      · have : ¬ y < x := by omega
        simp [hxy, this] at h2
      · by_cases hyx : y < x
        · simp [hxy, hyx] at h1
        · simp only [hxy, hyx, if_false] at h1 h2
          have : x = y := by omega
          subst this
          rw [ih ys h1 h2]

theorem localeCompare_step (x y : Nat) (r : Int) :
    (if x < y then (-1 : Int) else if y < x then 1 else r) ≤ 0 ↔ x < y ∨ (x = y ∧ r ≤ 0) := by
  split_ifs <;> omega

theorem isDateKey_shape (a : JSString) (h : isDateKey a = true) :
    ∃ y1 y2 y3 y4 m1 m2 d1 d2, a = [y1, y2, y3, y4, 45, m1, m2, 45, d1, d2] ∧
      (48 ≤ y1 ∧ y1 ≤ 57) ∧ (48 ≤ y2 ∧ y2 ≤ 57) ∧ (48 ≤ y3 ∧ y3 ≤ 57) ∧ (48 ≤ y4 ∧ y4 ≤ 57) ∧
      (48 ≤ m1 ∧ m1 ≤ 57) ∧ (48 ≤ m2 ∧ m2 ≤ 57) ∧ (48 ≤ d1 ∧ d1 ≤ 57) ∧ (48 ≤ d2 ∧ d2 ≤ 57) := by
  unfold isDateKey at h
  rcases a with _ | ⟨y1, a⟩ <;> simp only [matchesAll, Bool.and_eq_true, reduceCtorEq] at h
  rcases a with _ | ⟨y2, a⟩ <;> simp only [matchesAll, Bool.and_eq_true, reduceCtorEq, and_false] at h
  rcases a with _ | ⟨y3, a⟩ <;> simp only [matchesAll, Bool.and_eq_true, reduceCtorEq, and_false] at h
  rcases a with _ | ⟨y4, a⟩ <;> simp only [matchesAll, Bool.and_eq_true, reduceCtorEq, and_false] at h
  rcases a with _ | ⟨h1, a⟩ <;> simp only [matchesAll, Bool.and_eq_true, reduceCtorEq, and_false] at h
  rcases a with _ | ⟨m1, a⟩ <;> simp only [matchesAll, Bool.and_eq_true, reduceCtorEq, and_false] at h
  rcases a with _ | ⟨m2, a⟩ <;> simp only [matchesAll, Bool.and_eq_true, reduceCtorEq, and_false] at h
  rcases a with _ | ⟨h2, a⟩ <;> simp only [matchesAll, Bool.and_eq_true, reduceCtorEq, and_false] at h
  rcases a with _ | ⟨d1, a⟩ <;> simp only [matchesAll, Bool.and_eq_true, reduceCtorEq, and_false] at h
  rcases a with _ | ⟨d2, a⟩ <;> simp only [matchesAll, Bool.and_eq_true, reduceCtorEq, and_false] at h
  rcases a with _ | ⟨e, a⟩ <;> simp only [matchesAll, Bool.and_eq_true, reduceCtorEq, and_false] at h
  simp only [isDigit, isHyphen, Bool.and_eq_true, decide_eq_true_eq, and_true] at h
  obtain ⟨a1, a2, a3, a4, rfl, a5, a6, rfl, a7, a8⟩ := h
  exact ⟨y1, y2, y3, y4, m1, m2, d1, d2, rfl, a1, a2, a3, a4, a5, a6, a7, a8⟩

theorem earlier_of_localeCompare (a b : JSString) (ha : isDateKey a = true)
    (hb : isDateKey b = true) (hne : a ≠ b) (h : localeCompare a b ≤ 0) : earlier a b := by
  obtain ⟨y1, y2, y3, y4, m1, m2, d1, d2, rfl, a1, a2, a3, a4, a5, a6, a7, a8⟩ := isDateKey_shape a ha
  obtain ⟨z1, z2, z3, z4, n1, n2, e1, e2, rfl, b1, b2, b3, b4, b5, b6, b7, b8⟩ := isDateKey_shape b hb
  have hne2 : ¬ (y1 = z1 ∧ y2 = z2 ∧ y3 = z3 ∧ y4 = z4 ∧ m1 = n1 ∧ m2 = n2 ∧ d1 = e1 ∧ d2 = e2) := by
    rintro ⟨rfl, rfl, rfl, rfl, rfl, rfl, rfl, rfl⟩
    exact hne rfl
  have shift : ∀ u : Nat, 48 ≤ u ∧ u ≤ 57 → ∃ p, u = p + 48 ∧ p ≤ 9 :=
    fun u hu => ⟨u - 48, by omega, by omega⟩
  obtain ⟨p1, rfl, _⟩ := shift y1 a1
  obtain ⟨p2, rfl, _⟩ := shift y2 a2
  obtain ⟨p3, rfl, _⟩ := shift y3 a3
  obtain ⟨p4, rfl, _⟩ := shift y4 a4
  obtain ⟨p5, rfl, _⟩ := shift m1 a5
  obtain ⟨p6, rfl, _⟩ := shift m2 a6
  obtain ⟨p7, rfl, _⟩ := shift d1 a7
  obtain ⟨p8, rfl, _⟩ := shift d2 a8
  obtain ⟨q1, rfl, _⟩ := shift z1 b1
  obtain ⟨q2, rfl, _⟩ := shift z2 b2
  obtain ⟨q3, rfl, _⟩ := shift z3 b3
  obtain ⟨q4, rfl, _⟩ := shift z4 b4
  obtain ⟨q5, rfl, _⟩ := shift n1 b5
  obtain ⟨q6, rfl, _⟩ := shift n2 b6
  obtain ⟨q7, rfl, _⟩ := shift e1 b7
  obtain ⟨q8, rfl, _⟩ := shift e2 b8
  simp only [earlier, yearOf, monthOf, dayOf, digitsValue, List.take, List.drop, List.foldl,
    Nat.add_sub_cancel]
  simp only [localeCompare, localeCompare_step] at h
  omega

/-! ## Sidebar index: properties -/

theorem populatePreviousDaysList_previousDays (s : State) :
    (populatePreviousDaysList s).previousDays =
      (dateKeys s.localStorage).map fun d => { textContent := d, date := d, active := false } := by
  unfold populatePreviousDaysList
  by_cases h : (dateKeys s.localStorage).length > 0
  · simp [h]
  · have h0 : dateKeys s.localStorage = [] := by
      cases hk : dateKeys s.localStorage with
      | nil => rfl
      | cons a l => rw [hk] at h; simp at h
    simp [h0]

theorem dateKeys_perm (store : Storage) :
    (dateKeys store).Perm (store.keys.filter isDateKey) :=
  sort_perm _ _

theorem dateKeys_sorted (store : Storage) :
    (dateKeys store).Pairwise fun a b => localeCompare b a ≤ 0 :=
  sort_pairwise (fun a b => localeCompare b a) (fun a b => localeCompare_total b a)
    (fun a b d h1 h2 => localeCompare_trans d b a h2 h1) _

theorem sorted_perm_unique (l1 l2 : List JSString) (hp : l1.Perm l2)
    (h1 : l1.Pairwise fun a b => localeCompare b a ≤ 0)
    (h2 : l2.Pairwise fun a b => localeCompare b a ≤ 0) : l1 = l2 := by
  haveI : IsAntisymm JSString (fun a b => localeCompare b a ≤ 0) :=
    ⟨fun a b hab hba => localeCompare_antisymm a b hba hab⟩
  exact List.eq_of_perm_of_sorted hp h1 h2

/-- C5. The rows `populatePreviousDaysList` renders, on a store holding each
key once: every row shows its own date key; the row keys are exactly the
stored keys that match the date pattern; no key has two rows; rows run from
the most recent date to the oldest (year, then month, then day); and stored
keys 2024-01-05, 2023-12-31, 2024-01-20, in whatever order the store
enumerates them, give the rows 2024-01-20, 2024-01-05, 2023-12-31. -/
theorem populatePreviousDaysList_rows (s : State) (hwf : s.localStorage.WellFormed) :
    ((populatePreviousDaysList s).previousDays.map Row.textContent =
      (populatePreviousDaysList s).previousDays.map Row.date) ∧
    (∀ k, k ∈ (populatePreviousDaysList s).previousDays.map Row.date ↔
      (k ∈ s.localStorage.keys ∧ isDateKey k = true)) ∧
    ((populatePreviousDaysList s).previousDays.map Row.date).Nodup ∧
    ((populatePreviousDaysList s).previousDays.map Row.date).Pairwise (fun a b => earlier b a) ∧
    (s.localStorage.keys.Perm [lit "2024-01-05", lit "2023-12-31", lit "2024-01-20"] →
      (populatePreviousDaysList s).previousDays.map Row.date =
        [lit "2024-01-20", lit "2024-01-05", lit "2023-12-31"]) := by
  have hd : (populatePreviousDaysList s).previousDays.map Row.date = dateKeys s.localStorage := by
    rw [populatePreviousDaysList_previousDays]
    simp [List.map_map, Function.comp_def]
  have ht : (populatePreviousDaysList s).previousDays.map Row.textContent =
      dateKeys s.localStorage := by
    rw [populatePreviousDaysList_previousDays]
    simp [List.map_map, Function.comp_def]
  have hmem : ∀ k, k ∈ dateKeys s.localStorage ↔ (k ∈ s.localStorage.keys ∧ isDateKey k = true) := by
    intro k
    rw [(dateKeys_perm s.localStorage).mem_iff, List.mem_filter]
  have hnodup : (dateKeys s.localStorage).Nodup :=
    (dateKeys_perm s.localStorage).nodup_iff.mpr (List.Nodup.filter _ hwf)
  rw [hd, ht]
  refine ⟨rfl, hmem, hnodup, ?_, ?_⟩
  · have h2 := (dateKeys_sorted s.localStorage).and hnodup
    refine List.Pairwise.imp_of_mem ?_ h2
    intro a b ha hb hab
    exact earlier_of_localeCompare b a ((hmem b).mp hb).2 ((hmem a).mp ha).2
      (fun e => hab.2 e.symm) hab.1
  · intro hp
    apply sorted_perm_unique _ _ _ (dateKeys_sorted s.localStorage) (by decide)
    refine (dateKeys_perm s.localStorage).trans ?_
    refine (hp.filter isDateKey).trans ?_
    decide

/-- Witness for C5: the sidebar of a page whose store holds two date keys and
a key that is not a date. -/
theorem populatePreviousDaysList_rows_witness :
    (blankPage [(lit "2024-01-05", lit "a"), (lit "theme", lit "dark"),
        (lit "2024-01-20", lit "b")] 0).localStorage.WellFormed ∧
    (populatePreviousDaysList (blankPage [(lit "2024-01-05", lit "a"), (lit "theme", lit "dark"),
        (lit "2024-01-20", lit "b")] 0)).previousDays.map Row.date =
      [lit "2024-01-20", lit "2024-01-05"] ∧
    ((populatePreviousDaysList (blankPage [(lit "2024-01-05", lit "a"), (lit "theme", lit "dark"),
        (lit "2024-01-20", lit "b")] 0)).previousDays.map Row.date).Pairwise
      (fun a b => earlier b a) :=
  ⟨by decide, by decide,
    (populatePreviousDaysList_rows (blankPage [(lit "2024-01-05", lit "a"),
      (lit "theme", lit "dark"), (lit "2024-01-20", lit "b")] 0) (by decide)).2.2.2.1⟩

/-! ## View loader: properties -/

theorem getItem_removeItem (store : Storage) (key : JSString) :
    (store.removeItem key).getItem key = none := by
  induction store with
  | nil => rfl
  | cons kv rest ih =>
    obtain ⟨k, v⟩ := kv
    by_cases h : k = key
    · simpa [Storage.removeItem, h] using ih
    · simp only [Storage.removeItem, ne_eq, decide_not] at ih
      simp [Storage.removeItem, h, Storage.getItem, ih]

theorem loadDataForDate_of_reload (P : Platform) (d : JSString) (s : State)
    (h : ¬ (s.currentlyEditingDate = d ∧ s.journalText ≠ [])) :
    loadDataForDate P d s =
      { s with
        currentlyEditingDate := d
        displayDate := d
        journalText := normalizeNewlines (toJSString P (readSaved P (s.localStorage.getItem d)).1)
        taskList := dailyTasks.map fun task =>
          { id := task.id ++ lit "-" ++ d
            taskId := task.id
            checked := checkedFrom P (readSaved P (s.localStorage.getItem d)).2 task.id
            labelFor := task.id ++ lit "-" ++ d
            labelText := task.text }
        statusText := []
        previousDays := s.previousDays.map fun li => { li with active := decide (li.date = d) } } := by
  unfold loadDataForDate
  rw [if_neg h]
  simp [renderTasks, clearStatus, updatePreviousDaysHighlight, List.map_map, Function.comp_def]

theorem readSaved_malformed (P : Platform) (text : JSString)
    (hbad : JSONparse text = none ∨ JSONparse text = some JSON.null) :
    readSaved P (some text) = (JSON.str [], JSON.obj []) := by
  unfold readSaved
  by_cases h : text = []
  · simp [h]
  · rcases hbad with hb | hb <;> simp [h, hb]

theorem lookupProp_mem (members : List (JSString × JSON)) (key : JSString) (v : JSON)
    (h : lookupProp members key = some v) : (key, v) ∈ members := by
  induction members with
  | nil => simp [lookupProp] at h
  | cons kv rest ih =>
    obtain ⟨k, w⟩ := kv
    simp only [lookupProp] at h
    cases hr : lookupProp rest key with
    | some x =>
      rw [hr] at h
      simp only [Option.some.injEq] at h
      subst h
      exact List.mem_cons_of_mem _ (ih hr)
    | none =>
      rw [hr] at h
      by_cases hk : k = key
      · simp only [hk, if_true, Option.some.injEq] at h
        subst h; subst hk
        exact List.mem_cons_self _ _
      · simp [hk] at h

/-- C7 (amended). When the text stored under `d` does not parse as JSON, or
parses to `null`, `loadDataForDate(d)` (a total function: nothing is thrown)
gives the state it gives on the same page with no entry under `d`, the store
itself apart; and when it reloads (it is not the short cut for the date
already shown with a journal text) the journal is empty, every task is
unchecked and the status message is cleared. -/
theorem loadDataForDate_malformed (P : Platform) (d : JSString) (s : State) (text : JSString)
    (hget : s.localStorage.getItem d = some text)
    (hbad : JSONparse text = none ∨ JSONparse text = some JSON.null) :
    loadDataForDate P d s =
      { loadDataForDate P d { s with localStorage := s.localStorage.removeItem d } with
        localStorage := s.localStorage } ∧
    (¬ (s.currentlyEditingDate = d ∧ s.journalText ≠ []) →
      (loadDataForDate P d s).journalText = [] ∧
      (∀ c ∈ (loadDataForDate P d s).taskList, c.checked = false) ∧
      (loadDataForDate P d s).statusText = []) := by
  have hsaved : readSaved P (s.localStorage.getItem d) = (JSON.str [], JSON.obj []) := by
    rw [hget]; exact readSaved_malformed P text hbad
  constructor
  · by_cases h : s.currentlyEditingDate = d ∧ s.journalText ≠ []
    · have e1 : loadDataForDate P d s = s := by simp [loadDataForDate, h]
      have e2 : loadDataForDate P d { s with localStorage := s.localStorage.removeItem d } =
          { s with localStorage := s.localStorage.removeItem d } := by
        simp [loadDataForDate, h]
      rw [e1, e2]
    · have e2 := loadDataForDate_of_reload P d
        { s with localStorage := s.localStorage.removeItem d } h
      rw [loadDataForDate_of_reload P d s h, e2]
      simp only [getItem_removeItem, hsaved]
      rfl
  · intro h
    rw [loadDataForDate_of_reload P d s h, hsaved]
    refine ⟨rfl, ?_, rfl⟩
    intro c hc
    simp only [List.mem_map] at hc
    obtain ⟨t, _, rfl⟩ := hc
    rfl

/-- Witness for C7 (amended): loading 2024-03-10 on a page whose entry for
that date is not JSON. -/
theorem loadDataForDate_malformed_witness :
    pageWithBrokenEntry.localStorage.getItem (lit "2024-03-10") = some (lit "\x7boops") ∧
    JSONparse (lit "\x7boops") = none ∧
    ¬ (pageWithBrokenEntry.currentlyEditingDate = lit "2024-03-10" ∧
      pageWithBrokenEntry.journalText ≠ []) ∧
    (loadDataForDate lenient (lit "2024-03-10") pageWithBrokenEntry).journalText = [] ∧
    (∀ c ∈ (loadDataForDate lenient (lit "2024-03-10") pageWithBrokenEntry).taskList,
      c.checked = false) ∧
    (loadDataForDate lenient (lit "2024-03-10") pageWithBrokenEntry).statusText = [] :=
  ⟨by decide, rfl, by decide,
    (loadDataForDate_malformed lenient (lit "2024-03-10") pageWithBrokenEntry (lit "\x7boops")
      (by decide) (Or.inl rfl)).2 (by decide)⟩

/-- C7 as stated fails: the page shows 2024-03-10, whose stored text is not
JSON, and the user has typed a word; a click on the sidebar row of that date
calls `loadDataForDate` for it, which takes the short cut of the date
already shown, so the journal is not empty afterwards. -/
theorem loadDataForDate_malformed_shown :
    typedOverBrokenEntry.localStorage.getItem (lit "2024-03-10") = some (lit "\x7boops") ∧
    JSONparse (lit "\x7boops") = none ∧
    typedOverBrokenEntry.currentlyEditingDate = lit "2024-03-10" ∧
    typedOverBrokenEntry.previousDays.map Row.date = [lit "2024-03-10"] ∧
    (step lenient typedOverBrokenEntry (100, Action.click 0)).journalText = lit "abc" ∧
    (loadDataForDate lenient (lit "2024-03-10") typedOverBrokenEntry).journalText = lit "abc" ∧
    (loadDataForDate lenient (lit "2024-03-10") typedOverBrokenEntry).journalText ≠ [] :=
  ⟨by decide, rfl, by decide, by decide, by decide, by decide, by decide⟩

/-- C8. After a `loadDataForDate(d)` that reloads (not the short cut), the
checklist holds one checkbox per task of the catalog, in catalog order,
whatever the store holds under `d`; and when the stored text is a record
whose `tasks` member maps ids to booleans, a checkbox is checked exactly
when the stored map gives its task the flag `true`, so a task the map does
not mention is unchecked and an id outside the catalog has no checkbox. -/
theorem loadDataForDate_checklist (P : Platform) (d : JSString) (s : State)
    (hreload : ¬ (s.currentlyEditingDate = d ∧ s.journalText ≠ [])) :
    (loadDataForDate P d s).taskList.map TaskItem.taskId = dailyTasks.map Task.id ∧
    ∀ (text : JSString) (fields flags : List (JSString × JSON)),
      s.localStorage.getItem d = some text →
      JSONparse text = some (JSON.obj fields) →
      lookupProp fields (lit "tasks") = some (JSON.obj flags) →
      (∀ kv ∈ flags, ∃ b, kv.2 = JSON.bool b) →
      ∀ c ∈ (loadDataForDate P d s).taskList,
        (c.checked = true ↔ lookupProp flags c.taskId = some (JSON.bool true)) ∧
        (lookupProp flags c.taskId = none → c.checked = false) := by
  rw [loadDataForDate_of_reload P d s hreload]
  constructor
  · simp [List.map_map, Function.comp_def]
  · intro text fields flags hget hparse htasks hbool c hc
    have hne : text ≠ [] := by
      rintro rfl
      simp [JSONparse, parseValue, skipWs] at hparse
    have hsaved : (readSaved P (s.localStorage.getItem d)).2 = JSON.obj flags := by
      rw [hget]
      simp [readSaved, hne, hparse, getProp, htasks, orDefault, toBoolean]
    simp only [List.mem_map] at hc
    obtain ⟨t, _, rfl⟩ := hc
    simp only [hsaved, checkedFrom, getProp]
    cases hl : lookupProp flags t.id with
    | none => simp
    | some v =>
      obtain ⟨b, hb⟩ := hbool _ (lookupProp_mem flags t.id v hl)
      simp only at hb
      subst hb
      simp [toBoolean]

/-- Witness for C8: loading a stored record that checks one catalog task and
one task outside the catalog. -/
theorem loadDataForDate_checklist_witness :
    ¬ (pageWithEntry.currentlyEditingDate = lit "2024-03-10" ∧ pageWithEntry.journalText ≠ []) ∧
    (loadDataForDate lenient (lit "2024-03-10") pageWithEntry).taskList.map TaskItem.taskId =
      dailyTasks.map Task.id ∧
    (loadDataForDate lenient (lit "2024-03-10") pageWithEntry).taskList.map TaskItem.checked =
      [false, true, false, false] :=
  ⟨by decide, (loadDataForDate_checklist lenient (lit "2024-03-10") pageWithEntry (by decide)).1,
    by decide⟩

theorem loadDataForDate_of_shown (P : Platform) (d : JSString) (s : State)
    (h1 : s.currentlyEditingDate = d) (h2 : s.journalText ≠ []) : loadDataForDate P d s = s := by
  simp [loadDataForDate, h1, h2]

/-- C9. When the bound date is `d` and the journal field is not empty,
`loadDataForDate(d)` returns the state unchanged (every variable, element,
the store and the timers); and a second `loadDataForDate(d)` right after a
first one that left a non-empty journal changes nothing. -/
theorem loadDataForDate_idempotent (P : Platform) (d : JSString) (s : State) :
    (s.currentlyEditingDate = d → s.journalText ≠ [] → loadDataForDate P d s = s) ∧
    ((loadDataForDate P d s).journalText ≠ [] →
      loadDataForDate P d (loadDataForDate P d s) = loadDataForDate P d s) := by
  refine ⟨loadDataForDate_of_shown P d s, fun hj => loadDataForDate_of_shown P d _ ?_ hj⟩
  by_cases h : s.currentlyEditingDate = d ∧ s.journalText ≠ []
  · rw [loadDataForDate_of_shown P d s h.1 h.2]; exact h.1
  · rw [loadDataForDate_of_reload P d s h]

/-- Witness for C9: reloading the date that is shown with its journal. -/
theorem loadDataForDate_idempotent_witness :
    (loadDataForDate lenient (lit "2024-03-10") pageWithEntry).currentlyEditingDate =
      lit "2024-03-10" ∧
    (loadDataForDate lenient (lit "2024-03-10") pageWithEntry).journalText ≠ [] ∧
    loadDataForDate lenient (lit "2024-03-10")
        (loadDataForDate lenient (lit "2024-03-10") pageWithEntry) =
      loadDataForDate lenient (lit "2024-03-10") pageWithEntry :=
  ⟨by decide, by decide,
    (loadDataForDate_idempotent lenient (lit "2024-03-10")
      (loadDataForDate lenient (lit "2024-03-10") pageWithEntry)).1 (by decide) (by decide)⟩

/-! ## Save path: properties -/

theorem getItem_setItem (store : Storage) (key value : JSString) :
    (store.setItem key value).getItem key = some value := by
  induction store with
  | nil => simp [Storage.setItem, Storage.getItem]
  | cons kv rest ih =>
    obtain ⟨k, v⟩ := kv
    by_cases h : k = key
    · simp [Storage.setItem, Storage.getItem, h]
    · simp [Storage.setItem, Storage.getItem, h, ih]

theorem setItem_keys_of_mem (store : Storage) (key value : JSString)
    (h : key ∈ store.keys) : (store.setItem key value).keys = store.keys := by
  induction store with
  | nil => simp [Storage.keys] at h
  | cons kv rest ih =>
    obtain ⟨k, v⟩ := kv
    by_cases hk : k = key
    · simp [Storage.setItem, Storage.keys, hk]
    · have hr : key ∈ Storage.keys rest := by
        simp only [Storage.keys, List.map_cons, List.mem_cons] at h
        rcases h with h | h
        · exact absurd h.symm hk
        · exact h
      have := ih hr
      simp only [Storage.keys] at this
      simp [Storage.setItem, Storage.keys, hk, this]

theorem setItem_keys_of_not_mem (store : Storage) (key value : JSString)
    (h : key ∉ store.keys) : (store.setItem key value).keys = store.keys ++ [key] := by
  induction store with
  | nil => simp [Storage.setItem, Storage.keys]
  | cons kv rest ih =>
    obtain ⟨k, v⟩ := kv
    simp only [Storage.keys, List.map_cons, List.mem_cons, not_or] at h
    have := ih h.2
    simp only [Storage.keys] at this
    simp [Storage.setItem, Storage.keys, Ne.symm h.1, this]

theorem setItem_wellFormed (store : Storage) (key value : JSString) (h : store.WellFormed) :
    (store.setItem key value).WellFormed := by
  unfold Storage.WellFormed at h ⊢
  by_cases hk : key ∈ store.keys
  · rw [setItem_keys_of_mem store key value hk]; exact h
  · rw [setItem_keys_of_not_mem store key value hk]
    exact List.Nodup.append h (List.nodup_singleton key) (by simpa using hk)

theorem removeItem_wellFormed (store : Storage) (key : JSString) (h : store.WellFormed) :
    (store.removeItem key).WellFormed := by
  unfold Storage.WellFormed Storage.keys Storage.removeItem at *
  exact ((List.filter_sublist store).map Prod.fst).nodup h

theorem taskList_shape (items : List TaskItem)
    (h : items.map TaskItem.taskId = dailyTasks.map Task.id) :
    ∃ c1 c2 c3 c4 : TaskItem, items = [c1, c2, c3, c4] ∧
      c1.taskId = lit "task-exercise" ∧ c2.taskId = lit "task-read" ∧
      c3.taskId = lit "task-hydrate" ∧ c4.taskId = lit "task-plan" := by
  simp only [dailyTasks, List.map] at h
  rcases items with _ | ⟨c1, _ | ⟨c2, _ | ⟨c3, _ | ⟨c4, _ | ⟨c5, r⟩⟩⟩⟩⟩ <;>
    simp only [List.map, List.cons.injEq, reduceCtorEq, and_false, and_true] at h
  exact ⟨c1, c2, c3, c4, rfl, h.1, h.2.1, h.2.2.1, h.2.2.2⟩

theorem dataToSave_of_catalog (s : State)
    (h : s.taskList.map TaskItem.taskId = dailyTasks.map Task.id) :
    dataToSave s =
      { journal := s.journalText, tasks := s.taskList.map fun c => (c.taskId, c.checked) } := by
  obtain ⟨c1, c2, c3, c4, hl, h1, h2, h3, h4⟩ := taskList_shape s.taskList h
  have n12 : lit "task-exercise" ≠ lit "task-read" := by decide
  have n13 : lit "task-exercise" ≠ lit "task-hydrate" := by decide
  have n14 : lit "task-exercise" ≠ lit "task-plan" := by decide
  have n23 : lit "task-read" ≠ lit "task-hydrate" := by decide
  have n24 : lit "task-read" ≠ lit "task-plan" := by decide
  have n34 : lit "task-hydrate" ≠ lit "task-plan" := by decide
  simp [dataToSave, hl, setProp, h1, h2, h3, h4, n12, n13, n14, n23, n24, n34]

theorem isEmpty_eq_false (d : DataToSave)
    (h : trim d.journal ≠ [] ∨ ∃ kv ∈ d.tasks, kv.2 = true) : isEmpty d = false := by
  unfold isEmpty
  rcases h with h | ⟨kv, hkv, ht⟩
  · have : (trim d.journal).isEmpty = false := by
      cases hj : trim d.journal with
      | nil => exact absurd hj h
      | cons a l => rfl
    simp [this]
  · have : (d.tasks.all fun kv => !kv.2) = false := by
      rw [Bool.eq_false_iff]
      intro hall
      rw [List.all_eq_true] at hall
      have := hall kv hkv
      simp [ht] at this
    simp [this]

theorem saveData_localStorage_of_content (P : Platform) (s : State)
    (hbound : s.currentlyEditingDate ≠ [])
    (hne : isEmpty (dataToSave s) = false)
    (haccept : P.accepts s.localStorage s.currentlyEditingDate (JSONstringify (dataToSave s)) = true) :
    (saveData P s).localStorage =
      s.localStorage.setItem s.currentlyEditingDate (JSONstringify (dataToSave s)) := by
  have hd : dataToSave { s with saveCalls := s.saveCalls + 1 } = dataToSave s := rfl
  simp [saveData, hbound, hd, hne, haccept, updatePreviousDaysHighlight,
    populatePreviousDaysList, showStatus]
  split <;> rfl

/-- C1 (amended). With a date bound, the checklist being the rendered
catalog, a journal text that is not blank (some character is not white
space) or at least one checked task, and a store that accepts the write,
`saveData` leaves under the bound date key the serialised record assembled
from the page: its journal text and one boolean per catalog task id, in
catalog order. -/
theorem saveData_stores_record (P : Platform) (s : State)
    (hbound : s.currentlyEditingDate ≠ [])
    (hlist : s.taskList.map TaskItem.taskId = dailyTasks.map Task.id)
    (hcontent : trim s.journalText ≠ [] ∨ ∃ c ∈ s.taskList, c.checked = true)
    (haccept : P.accepts s.localStorage s.currentlyEditingDate
      (JSONstringify (dataToSave s)) = true) :
    dataToSave s =
      { journal := s.journalText, tasks := s.taskList.map fun c => (c.taskId, c.checked) } ∧
    (saveData P s).localStorage.getItem s.currentlyEditingDate =
      some (JSONstringify (dataToSave s)) := by
  have hd := dataToSave_of_catalog s hlist
  refine ⟨hd, ?_⟩
  have hne : isEmpty (dataToSave s) = false := by
    apply isEmpty_eq_false
    rw [hd]
    rcases hcontent with h | ⟨c, hc, ht⟩
    · exact Or.inl h
    · exact Or.inr ⟨(c.taskId, c.checked), List.mem_map.mpr ⟨c, hc, rfl⟩, ht⟩
  rw [saveData_localStorage_of_content P s hbound hne haccept, getItem_setItem]

/-- Witness for C1 (amended): saving a page with a word in the journal and
one checked task. -/
theorem saveData_stores_record_witness :
    pageWithContent.currentlyEditingDate ≠ [] ∧
    pageWithContent.taskList.map TaskItem.taskId = dailyTasks.map Task.id ∧
    (trim pageWithContent.journalText ≠ [] ∨ ∃ c ∈ pageWithContent.taskList, c.checked = true) ∧
    (saveData lenient pageWithContent).localStorage.getItem pageWithContent.currentlyEditingDate =
      some (JSONstringify (dataToSave pageWithContent)) :=
  ⟨by decide, by decide, Or.inl (by decide),
    (saveData_stores_record lenient pageWithContent (by decide) (by decide)
      (Or.inl (by decide)) rfl).2⟩

/-- C1 as stated fails: with 2024-03-10 bound, a journal text that is not
empty (a single space), no task checked and a store that accepts every
write, `saveData` stores nothing under the bound date key. -/
theorem saveData_space_not_stored :
    pageWithSpace.currentlyEditingDate = lit "2024-03-10" ∧
    pageWithSpace.journalText ≠ [] ∧
    pageWithSpace.taskList.map TaskItem.taskId = dailyTasks.map Task.id ∧
    (saveData lenient pageWithSpace).localStorage.getItem (lit "2024-03-10") = none := by
  decide

/-- C2, at the failing input: the store holds the empty text under the bound
date 2024-03-10, the journal is empty and no task is checked; after
`saveData` the store still holds an entry under that key, and the sidebar
would still list it. -/
theorem saveData_keeps_empty_text :
    pageOverEmptyText.currentlyEditingDate = lit "2024-03-10" ∧
    pageOverEmptyText.journalText = [] ∧
    (∀ c ∈ pageOverEmptyText.taskList, c.checked = false) ∧
    (saveData lenient pageOverEmptyText).localStorage.getItem (lit "2024-03-10") = some [] ∧
    lit "2024-03-10" ∈ dateKeys (saveData lenient pageOverEmptyText).localStorage := by
  decide

/-- What `saveData` does on a blank page (journal blank, nothing checked)
when the text stored under the bound date is absent or not empty: no entry
is left under the bound date key. -/
theorem saveData_blank_removes (P : Platform) (s : State)
    (hbound : s.currentlyEditingDate ≠ [])
    (hblank : isEmpty (dataToSave s) = true)
    (hstored : s.localStorage.getItem s.currentlyEditingDate ≠ some []) :
    (saveData P s).localStorage.getItem s.currentlyEditingDate = none := by
  have hd : dataToSave { s with saveCalls := s.saveCalls + 1 } = dataToSave s := rfl
  simp only [saveData, hbound, if_false, hd, hblank, Bool.not_true]
  cases hg : s.localStorage.getItem s.currentlyEditingDate with
  | none => simpa [clearStatus] using hg
  | some stored =>
    have hs : stored ≠ [] := by
      rintro rfl
      exact hstored hg
    simp only [Bool.false_eq_true, if_false, hs]
    simp only [populatePreviousDaysList, showStatus]
    split <;> exact getItem_removeItem _ _

/-! ## Serialised records: the parser reads back what the serialiser writes -/

theorem hexVal_hexDigit (n : Nat) (h : n < 16) : hexVal (hexDigit n) = some n := by
  unfold hexVal hexDigit
  by_cases h1 : n < 10
  · have : 48 ≤ 48 + n ∧ 48 + n ≤ 57 := by omega
    simp [h1, this]
  · have a : ¬ (48 ≤ 87 + n ∧ 87 + n ≤ 57) := by omega
    have b : 97 ≤ 87 + n ∧ 87 + n ≤ 102 := by omega
    simp [h1, a, b]

theorem hex4_unicodeEscape (u : Nat) (h : u < 65536) :
    hex4 (hexDigit (u / 4096 % 16)) (hexDigit (u / 256 % 16)) (hexDigit (u / 16 % 16))
      (hexDigit (u % 16)) = some u := by
  have h0 : u / 4096 % 16 < 16 := Nat.mod_lt _ (by decide)
  have h1 : u / 256 % 16 < 16 := Nat.mod_lt _ (by decide)
  have h2 : u / 16 % 16 < 16 := Nat.mod_lt _ (by decide)
  have h3 : u % 16 < 16 := Nat.mod_lt _ (by decide)
  simp only [hex4, hexVal_hexDigit _ h0, hexVal_hexDigit _ h1, hexVal_hexDigit _ h2,
    hexVal_hexDigit _ h3, Option.some.injEq]
  omega

theorem parseChars_verbatim (u : Nat) (x : JSString) (h1 : u ≠ 34) (h2 : u ≠ 92)
    (h3 : ¬ u < 32) : parseChars (u :: x) = consUnit u (parseChars x) := by
  rw [parseChars.eq_def]
  simp [h1, h2, h3]

theorem parseChars_quoteUnit (u : Nat) (x : JSString) :
    parseChars (quoteUnit u ++ x) = consUnit u (parseChars x) := by
  unfold quoteUnit
  split_ifs with c1 c2 c3 c4 c5 c6 c7 c8
  · subst c1; rw [List.cons_append, parseChars.eq_def]; simp
  · subst c2; rw [List.cons_append, parseChars.eq_def]; simp
  · subst c3; rw [List.cons_append, parseChars.eq_def]; simp
  · subst c4; rw [List.cons_append, parseChars.eq_def]; simp
  · subst c5; rw [List.cons_append, parseChars.eq_def]; simp
  · subst c6; rw [List.cons_append, parseChars.eq_def]; simp
  · subst c7; rw [List.cons_append, parseChars.eq_def]; simp
  · have hu : u < 65536 := by
      simp only [isLeadSurrogate, isTrailSurrogate, Bool.or_eq_true, Bool.and_eq_true,
        decide_eq_true_eq] at c8
      omega
    rw [unicodeEscape, List.cons_append, parseChars.eq_def]
    simp [hex4_unicodeEscape u hu]
  · simp only [isLeadSurrogate, isTrailSurrogate, Bool.or_eq_true, Bool.and_eq_true,
      decide_eq_true_eq, not_or, not_and, not_le, not_lt] at c8
    exact parseChars_verbatim u x c6 c7 (by omega)

theorem parseChars_quoteBody (s rest : JSString) :
    parseChars (quoteBody s ++ 34 :: rest) = some (s, rest) := by
  obtain ⟨n, hn⟩ : ∃ n, s.length = n := ⟨_, rfl⟩
  induction n using Nat.strong_induction_on generalizing s with
  | _ n ih =>
    cases s with
    | nil =>
      rw [quoteBody, List.nil_append, parseChars.eq_def]
      simp
    | cons u tl =>
      rw [quoteBody.eq_def]
      simp only []
      by_cases hp : (isLeadSurrogate u && (tl.head?.map isTrailSurrogate).getD false) = true
      · rw [if_pos hp]
        cases tl with
        | nil => simp at hp
        | cons v tl2 =>
          simp only [List.head?_cons, Option.map_some', Option.getD_some, Bool.and_eq_true,
            isLeadSurrogate, isTrailSurrogate, decide_eq_true_eq] at hp
          have e := ih tl2.length (by simp at hn; omega) tl2 rfl
          rw [List.cons_append, List.cons_append,
            parseChars_verbatim u _ (by omega) (by omega) (by omega),
            parseChars_verbatim v _ (by omega) (by omega) (by omega), e]
          rfl
      · rw [if_neg hp, List.append_assoc, parseChars_quoteUnit,
          ih tl.length (by simp at hn; omega) tl rfl]
        rfl

theorem parseChars_quote (s rest : JSString) :
    parseChars (quoteBody s ++ [34] ++ rest) = some (s, rest) := by
  rw [List.append_assoc]
  exact parseChars_quoteBody s rest

theorem skipWs_cons (u : Nat) (x : JSString) (h : isJSONWhiteSpace u = false) :
    skipWs (u :: x) = u :: x := by
  simp [skipWs, List.dropWhile, h]

theorem parseValue_boolText (fuel : Nat) (b : Bool) (rest : JSString) :
    parseValue (fuel + 1) (boolText b ++ rest) = some (JSON.bool b, rest) := by
  cases b
  · have e : boolText false ++ rest = 102 :: (lit "alse" ++ rest) := rfl
    rw [e, parseValue, skipWs_cons _ _ (by decide)]
    simp [expect, lit, List.isPrefixOf]
  · have e : boolText true ++ rest = 116 :: (lit "rue" ++ rest) := rfl
    rw [e, parseValue, skipWs_cons _ _ (by decide)]
    simp [expect, lit, List.isPrefixOf]

theorem parseValue_quote (fuel : Nat) (s rest : JSString) :
    parseValue (fuel + 1) (quote s ++ rest) = some (JSON.str s, rest) := by
  have e : quote s ++ rest = 34 :: (quoteBody s ++ 34 :: rest) := by
    simp [quote, List.append_assoc]
  rw [e, parseValue, skipWs_cons _ _ (by decide)]
  simp [parseChars_quoteBody]

theorem parseMembers_member (fuel : Nat) (k : JSString) (v : JSON) (text tail : JSString)
    (hv : parseValue (fuel + 1) text = some (v, tail)) :
    parseMembers (fuel + 2) (quote k ++ 58 :: text) =
      match skipWs tail with
      | [] => none
      | d :: rest3 =>
        if d = 44 then
          match parseMembers (fuel + 1) rest3 with
          | some (ms, r3) => some ((k, v) :: ms, r3)
          | none => none
        else if d = 125 then some ([(k, v)], rest3)
        else none := by
  have e : quote k ++ 58 :: text = 34 :: (quoteBody k ++ 34 :: 58 :: text) := by
    simp [quote, List.append_assoc]
  rw [e, parseMembers, skipWs_cons _ _ (by decide)]
  simp only [if_true, parseChars_quoteBody]
  rw [skipWs_cons _ _ (by decide)]
  simp only [if_true, hv]

theorem parseMembers_stringifyTasks (flags : List (JSString × Bool)) (hne : flags ≠ [])
    (fuel : Nat) (hf : flags.length + 1 ≤ fuel) (x : JSString) :
    parseMembers fuel (stringifyTasks flags ++ 125 :: x) =
      some (flags.map fun kv => (kv.1, JSON.bool kv.2), x) := by
  induction flags generalizing fuel with
  | nil => exact absurd rfl hne
  | cons kv tl ih =>
    obtain ⟨k, b⟩ := kv
    obtain ⟨f, rfl⟩ : ∃ f, fuel = f + 2 := ⟨fuel - 2, by simp at hf; omega⟩
    cases tl with
    | nil =>
      have e : stringifyTasks [(k, b)] ++ 125 :: x = quote k ++ 58 :: (boolText b ++ 125 :: x) := by
        simp [stringifyTasks, List.append_assoc]
      rw [e, parseMembers_member f k (JSON.bool b) _ _ (parseValue_boolText f b _),
        skipWs_cons _ _ (by decide)]
      simp
    | cons kv2 tl2 =>
      have e : stringifyTasks ((k, b) :: kv2 :: tl2) ++ 125 :: x =
          quote k ++ 58 :: (boolText b ++ 44 :: (stringifyTasks (kv2 :: tl2) ++ 125 :: x)) := by
        simp [stringifyTasks, List.append_assoc]
      rw [e, parseMembers_member f k (JSON.bool b) _ _ (parseValue_boolText f b _),
        skipWs_cons _ _ (by decide)]
      simp only [if_true]
      rw [ih (by simp) (f + 1) (by simp at hf ⊢; omega)]
      simp

theorem quoteBody_length (s : JSString) : s.length ≤ (quoteBody s).length := by
  obtain ⟨n, hn⟩ : ∃ n, s.length = n := ⟨_, rfl⟩
  induction n using Nat.strong_induction_on generalizing s with
  | _ n ih =>
    cases s with
    | nil => simp
    | cons u tl =>
      rw [quoteBody.eq_def]
      simp only []
      split_ifs with hp
      · cases tl with
        | nil => simp at hp
        | cons v tl2 =>
          have := ih tl2.length (by simp at hn; omega) tl2 rfl
          simp only [List.length_cons]
          omega
      · have := ih tl.length (by simp at hn; omega) tl rfl
        have hq : 1 ≤ (quoteUnit u).length := by
          unfold quoteUnit unicodeEscape
          split_ifs <;> simp
        simp only [List.length_append, List.length_cons]
        omega

theorem stringifyTasks_length (flags : List (JSString × Bool)) :
    flags.length ≤ (stringifyTasks flags).length := by
  induction flags with
  | nil => simp
  | cons kv tl ih =>
    obtain ⟨k, b⟩ := kv
    cases tl with
    | nil => simp [stringifyTasks, quote]
    | cons kv2 tl2 =>
      simp only [stringifyTasks, List.length_append, List.length_cons] at ih ⊢
      omega

theorem parseValue_object (fuel c : Nat) (rest2 : JSString) (ms : List (JSString × JSON))
    (r : JSString) (hc : isJSONWhiteSpace c = false) (hne : c ≠ 125)
    (hm : parseMembers fuel (c :: rest2) = some (ms, r)) :
    parseValue (fuel + 1) (123 :: c :: rest2) = some (JSON.obj ms, r) := by
  rw [parseValue, skipWs_cons _ _ (by decide)]
  simp only [if_true]
  rw [skipWs_cons _ _ hc]
  simp only [hne, if_false, hm]

theorem parseValue_tasksObject (flags : List (JSString × Bool)) (fuel : Nat)
    (hf : flags.length + 2 ≤ fuel) (x : JSString) :
    parseValue fuel (123 :: (stringifyTasks flags ++ 125 :: x)) =
      some (JSON.obj (flags.map fun kv => (kv.1, JSON.bool kv.2)), x) := by
  obtain ⟨f, rfl⟩ : ∃ f, fuel = f + 1 := ⟨fuel - 1, by omega⟩
  cases flags with
  | nil =>
    simp only [stringifyTasks, List.nil_append, List.map_nil]
    rw [parseValue, skipWs_cons _ _ (by decide)]
    simp only [if_true]
    rw [skipWs_cons _ _ (by decide)]
    simp
  | cons kv tl =>
    have hm := parseMembers_stringifyTasks (kv :: tl) (by simp) f (by simp at hf ⊢; omega) x
    obtain ⟨t, ht⟩ : ∃ t, stringifyTasks (kv :: tl) ++ 125 :: x = 34 :: t := by
      obtain ⟨k, b⟩ := kv
      cases tl <;> exact ⟨_, by simp [stringifyTasks, quote]; rfl⟩
    rw [ht] at hm ⊢
    exact parseValue_object f 34 t _ _ (by decide) (by decide) hm

theorem JSONstringify_eq (d : DataToSave) :
    JSONstringify d =
      123 :: (quote (lit "journal") ++ 58 :: (quote d.journal ++
        44 :: (quote (lit "tasks") ++ 58 :: (123 :: (stringifyTasks d.tasks ++ 125 :: [125]))))) := by
  have e1 : quote (lit "journal") = lit "\"journal\"" := by decide
  have e2 : quote (lit "tasks") = lit "\"tasks\"" := by decide
  rw [e1, e2]
  simp [JSONstringify, lit, List.append_assoc]

theorem parseValue_JSONstringify (d : DataToSave) (fuel : Nat) (hf : d.tasks.length + 5 ≤ fuel) :
    parseValue fuel (JSONstringify d) = some (recordValue d, []) := by
  obtain ⟨f, rfl⟩ : ∃ f, fuel = f + 4 := ⟨fuel - 4, by omega⟩
  have h3 := parseValue_tasksObject d.tasks (f + 1) (by omega) [125]
  have h2 := parseMembers_member f (lit "tasks") _ _ _ h3
  rw [skipWs_cons _ _ (by decide)] at h2
  simp only [show ¬ ((125 : Nat) = 44) by decide, if_false, if_true] at h2
  have h1 := parseMembers_member (f + 1) (lit "journal") _ _ _
    (parseValue_quote (f + 1) d.journal
      (44 :: (quote (lit "tasks") ++ 58 :: (123 :: (stringifyTasks d.tasks ++ 125 :: [125])))))
  rw [skipWs_cons _ _ (by decide)] at h1
  simp only [if_true, h2] at h1
  have eq : quote (lit "journal") ++ 58 :: (quote d.journal ++
      44 :: (quote (lit "tasks") ++ 58 :: (123 :: (stringifyTasks d.tasks ++ 125 :: [125])))) =
      34 :: (quoteBody (lit "journal") ++ 34 :: 58 :: (quote d.journal ++
      44 :: (quote (lit "tasks") ++ 58 :: (123 :: (stringifyTasks d.tasks ++ 125 :: [125]))))) := by
    simp [quote, List.append_assoc]
  rw [eq] at h1
  rw [JSONstringify_eq, eq]
  exact parseValue_object (f + 3) 34 _ _ _ (by decide) (by decide) h1

theorem JSONparse_JSONstringify (d : DataToSave) :
    JSONparse (JSONstringify d) = some (recordValue d) := by
  have hlen : d.tasks.length + 5 ≤ 2 * (JSONstringify d).length + 1 := by
    have := stringifyTasks_length d.tasks
    rw [JSONstringify_eq]
    simp only [List.length_cons, List.length_append]
    omega
  simp [JSONparse, parseValue_JSONstringify d _ hlen, skipWs]

theorem lookupProp_eq_none (members : List (JSString × JSON)) (key : JSString)
    (h : key ∉ members.map Prod.fst) : lookupProp members key = none := by
  induction members with
  | nil => rfl
  | cons kv rest ih =>
    obtain ⟨k, v⟩ := kv
    simp only [List.map_cons, List.mem_cons, not_or] at h
    simp only [lookupProp, ih h.2]
    simp [Ne.symm h.1]

theorem lookupProp_flags (flags : List (JSString × Bool)) (hnd : (flags.map Prod.fst).Nodup)
    (k : JSString) (b : Bool) (hmem : (k, b) ∈ flags) :
    lookupProp (flags.map fun kv => (kv.1, JSON.bool kv.2)) k = some (JSON.bool b) := by
  induction flags with
  | nil => simp at hmem
  | cons kv tl ih =>
    obtain ⟨k0, b0⟩ := kv
    simp only [List.map_cons, List.nodup_cons] at hnd
    simp only [List.map_cons, lookupProp]
    rcases List.mem_cons.mp hmem with h | h
    · simp only [Prod.mk.injEq] at h
      obtain ⟨rfl, rfl⟩ := h
      rw [lookupProp_eq_none _ _ (by simpa [List.map_map, Function.comp_def] using hnd.1)]
      simp
    · rw [ih hnd.2 h]

theorem JSONstringify_ne_nil (d : DataToSave) : JSONstringify d ≠ [] := by
  rw [JSONstringify_eq]
  simp

theorem readSaved_JSONstringify (P : Platform) (d : DataToSave) :
    readSaved P (some (JSONstringify d)) =
      (JSON.str d.journal, JSON.obj (d.tasks.map fun kv => (kv.1, JSON.bool kv.2))) := by
  have n1 : lit "tasks" ≠ lit "journal" := by decide
  have n2 : lit "journal" ≠ lit "tasks" := by decide
  simp only [readSaved, JSONstringify_ne_nil, if_false, JSONparse_JSONstringify, recordValue,
    getProp, lookupProp, n1, n2, if_true, orDefault, toBoolean]
  cases hj : d.journal with
  | nil => simp
  | cons a l => simp

/-- C3. For every date key `d`, store and record `r` with one boolean per
catalog task id (whether or not its journal is empty or a flag is true, so
in particular when one of the two holds): after `setItem(d, JSON.stringify(r))`, what
`loadDataForDate` reads back from `getItem(d)` (parse, then the defaults of
the `||` expressions) is the journal text of `r` and, for every catalog task
id, the boolean `r` gives it. -/
theorem save_then_read_roundtrip (P : Platform) (store : Storage) (d : JSString)
    (r : DataToSave) (hkeys : r.tasks.map Prod.fst = dailyTasks.map Task.id) :
    toJSString P (readSaved P ((store.setItem d (JSONstringify r)).getItem d)).1 = r.journal ∧
    ∀ kv ∈ r.tasks,
      checkedFrom P (readSaved P ((store.setItem d (JSONstringify r)).getItem d)).2 kv.1 = kv.2 := by
  rw [getItem_setItem, readSaved_JSONstringify]
  refine ⟨rfl, ?_⟩
  intro kv hkv
  have hnd : (r.tasks.map Prod.fst).Nodup := by
    rw [hkeys]; decide
  simp only [checkedFrom, getProp, lookupProp_flags r.tasks hnd kv.1 kv.2 hkv, toBoolean]

/-- Witness for C3: the sample record written to an empty store and read
back. -/
theorem save_then_read_roundtrip_witness :
    sampleRecord.tasks.map Prod.fst = dailyTasks.map Task.id ∧
    toJSString lenient (readSaved lenient (Storage.getItem
      (Storage.setItem [] (lit "2024-03-10") (JSONstringify sampleRecord))
      (lit "2024-03-10"))).1 = lit "hi\n" :=
  ⟨by decide, (save_then_read_roundtrip lenient [] (lit "2024-03-10") sampleRecord (by decide)).1⟩

/-! ## Debounced save: properties -/

theorem saveData_frame (P : Platform) (s : State) :
    (saveData P s).currentlyEditingDate = s.currentlyEditingDate ∧
    (saveData P s).taskList = s.taskList ∧
    (saveData P s).journalText = s.journalText ∧
    (saveData P s).timers = s.timers ∧
    (saveData P s).saveTimeout = s.saveTimeout ∧
    (saveData P s).now = s.now ∧
    (saveData P s).nextTimerId = s.nextTimerId ∧
    (saveData P s).saveCalls = s.saveCalls + 1 := by
  unfold saveData
  simp only [populatePreviousDaysList, updatePreviousDaysHighlight, showStatus, clearStatus]
  repeat' split
  all_goals simp

theorem dateKeys_isDateKey (store : Storage) (k : JSString) (h : k ∈ dateKeys store) :
    isDateKey k = true :=
  (List.mem_filter.mp ((dateKeys_perm store).mem_iff.mp h)).2

theorem populatePreviousDaysList_rows_dateKey (s : State) :
    ∀ li ∈ (populatePreviousDaysList s).previousDays, isDateKey li.date = true := by
  rw [populatePreviousDaysList_previousDays]
  intro li hli
  obtain ⟨k, hk, rfl⟩ := List.mem_map.mp hli
  exact dateKeys_isDateKey _ k hk

theorem updatePreviousDaysHighlight_rows (s : State)
    (h : ∀ li ∈ s.previousDays, isDateKey li.date = true) :
    ∀ li ∈ (updatePreviousDaysHighlight s).previousDays, isDateKey li.date = true := by
  intro li hli
  simp only [updatePreviousDaysHighlight, List.mem_map] at hli
  obtain ⟨r, hr, rfl⟩ := hli
  exact h r hr

theorem saveData_rows (P : Platform) (s : State)
    (h : ∀ li ∈ s.previousDays, isDateKey li.date = true) :
    ∀ li ∈ (saveData P s).previousDays, isDateKey li.date = true := by
  unfold saveData
  simp only []
  repeat' split
  · exact h
  · apply updatePreviousDaysHighlight_rows
    exact populatePreviousDaysList_rows_dateKey _
  · exact h
  · exact h
  · exact h
  · exact populatePreviousDaysList_rows_dateKey _

theorem saveData_ready (P : Platform) (s : State) (h : Ready s) : Ready (saveData P s) := by
  obtain ⟨f1, f2, _, f4, f5, _, _, _⟩ := saveData_frame P s
  refine ⟨?_, ?_, saveData_rows P s h.rows, ?_, ?_⟩
  · rw [f1]; exact h.bound
  · rw [f2]; exact h.checklist
  · rw [f4, f5]; exact h.slot
  · rw [f4]; exact h.single

theorem advanceTo_of_no_timer (P : Platform) (t : Nat) (s : State) (h : s.timers = []) :
    advanceTo P t s = { s with now := max s.now t } := by
  simp [advanceTo, h, runTimers]

theorem advanceTo_of_not_due (P : Platform) (t : Nat) (s : State) (tm : Timer)
    (h : s.timers = [tm]) (hdue : t < tm.due) :
    advanceTo P t s = { s with now := max s.now t } := by
  have hn : ¬ tm.due ≤ t := by omega
  simp [advanceTo, h, runTimers, nextDue, hn]

theorem advanceTo_of_due (P : Platform) (t : Nat) (s : State) (tm : Timer)
    (h : s.timers = [tm]) (hdue : tm.due ≤ t) :
    advanceTo P t s =
      { saveData P { s with timers := [], now := max s.now tm.due } with
        now := max (max s.now tm.due) t } := by
  obtain ⟨_, _, _, f4, _, f6, _, _⟩ :=
    saveData_frame P { s with timers := [], now := max s.now tm.due }
  simp only [advanceTo, h, List.length_singleton, runTimers, nextDue, hdue, if_true,
    List.filter, ne_eq, not_true_eq_false, decide_False, f6]

theorem timers_cases (s : State) (h : Ready s) :
    s.timers = [] ∨ ∃ tm, s.timers = [tm] := by
  have := h.single
  rcases hs : s.timers with _ | ⟨tm, _ | ⟨tm2, r⟩⟩
  · exact Or.inl rfl
  · exact Or.inr ⟨tm, rfl⟩
  · rw [hs] at this; simp at this

theorem advanceTo_ready (P : Platform) (t : Nat) (s : State) (h : Ready s) :
    Ready (advanceTo P t s) := by
  rcases timers_cases s h with h0 | ⟨tm, h1⟩
  · rw [advanceTo_of_no_timer P t s h0]
    exact ⟨h.bound, h.checklist, h.rows, h.slot, h.single⟩
  · by_cases hdue : tm.due ≤ t
    · rw [advanceTo_of_due P t s tm h1 hdue]
      have hr : Ready { s with timers := [], now := max s.now tm.due } :=
        ⟨h.bound, h.checklist, h.rows, by simp, by simp⟩
      have h2 := saveData_ready P _ hr
      exact ⟨h2.bound, h2.checklist, h2.rows, h2.slot, h2.single⟩
    · rw [advanceTo_of_not_due P t s tm h1 (by omega)]
      exact ⟨h.bound, h.checklist, h.rows, h.slot, h.single⟩

theorem scheduleSave_timers (s : State) (h : Ready s) :
    (scheduleSave s).timers = [{ id := s.nextTimerId, due := s.now + 800 }] := by
  have hf : (clearTimeout s.saveTimeout s).timers = [] := by
    rcases timers_cases s h with h0 | ⟨tm, h1⟩
    · cases hs : s.saveTimeout <;> simp [clearTimeout, h0]
    · have := h.slot tm (by rw [h1]; simp)
      simp [clearTimeout, this, h1]
  have hn : (clearTimeout s.saveTimeout s).nextTimerId = s.nextTimerId := by
    cases hs : s.saveTimeout <;> simp [clearTimeout]
  have hw : (clearTimeout s.saveTimeout s).now = s.now := by
    cases hs : s.saveTimeout <;> simp [clearTimeout]
  simp [scheduleSave, clearStatus, hf, hn, hw]

theorem scheduleSave_frame (s : State) :
    (scheduleSave s).currentlyEditingDate = s.currentlyEditingDate ∧
    (scheduleSave s).taskList = s.taskList ∧
    (scheduleSave s).journalText = s.journalText ∧
    (scheduleSave s).previousDays = s.previousDays ∧
    (scheduleSave s).now = s.now ∧
    (scheduleSave s).saveCalls = s.saveCalls ∧
    (scheduleSave s).storeOps = s.storeOps ∧
    (scheduleSave s).localStorage = s.localStorage ∧
    (scheduleSave s).saveTimeout = some s.nextTimerId := by
  cases hs : s.saveTimeout <;> simp [scheduleSave, clearTimeout, clearStatus, hs]

theorem scheduleSave_ready (s : State) (h : Ready s) : Ready (scheduleSave s) := by
  obtain ⟨f1, f2, _, f4, _, _, _, _, f9⟩ := scheduleSave_frame s
  refine ⟨?_, ?_, ?_, ?_, ?_⟩
  · rw [f1]; exact h.bound
  · rw [f2]; exact h.checklist
  · rw [f4]; exact h.rows
  · intro tm htm
    rw [scheduleSave_timers s h] at htm
    simp only [List.mem_singleton] at htm
    rw [f9, htm]
  · rw [scheduleSave_timers s h]; simp

theorem isDateKey_ne_nil (k : JSString) (h : isDateKey k = true) : k ≠ [] := by
  rintro rfl
  simp [isDateKey, matchesAll] at h

theorem loadDataForDate_ready_of_reload (P : Platform) (d : JSString) (s : State) (hd : d ≠ [])
    (hreload : ¬ (s.currentlyEditingDate = d ∧ s.journalText ≠ []))
    (hrows : ∀ li ∈ s.previousDays, isDateKey li.date = true)
    (hslot : ∀ tm ∈ s.timers, s.saveTimeout = some tm.id) (hsingle : s.timers.length ≤ 1) :
    Ready (loadDataForDate P d s) := by
  rw [loadDataForDate_of_reload P d s hreload]
  refine ⟨hd, ?_, ?_, hslot, hsingle⟩
  · simp [List.map_map, Function.comp_def]
  · intro li hli
    simp only [List.mem_map] at hli
    obtain ⟨r, hr, rfl⟩ := hli
    exact hrows r hr

theorem loadDataForDate_ready (P : Platform) (d : JSString) (s : State) (hd : d ≠ [])
    (h : Ready s) : Ready (loadDataForDate P d s) := by
  by_cases hc : s.currentlyEditingDate = d ∧ s.journalText ≠ []
  · rw [loadDataForDate_of_shown P d s hc.1 hc.2]
    exact h
  · exact loadDataForDate_ready_of_reload P d s hd hc h.rows h.slot h.single

theorem toggleAt_taskId (index : Nat) (items : List TaskItem) :
    (toggleAt index items).map TaskItem.taskId = items.map TaskItem.taskId := by
  induction items generalizing index with
  | nil => cases index <;> rfl
  | cons c cs ih =>
    cases index with
    | zero => rfl
    | succ n => simp [toggleAt, ih n]

theorem perform_ready (P : Platform) (a : Action) (s : State) (h : Ready s) :
    Ready (perform P a s) := by
  cases a with
  | input text =>
    exact scheduleSave_ready _ ⟨h.bound, h.checklist, h.rows, h.slot, h.single⟩
  | toggle index =>
    simp only [perform]
    split
    · apply scheduleSave_ready
      exact ⟨h.bound, by simp only [toggleAt_taskId]; exact h.checklist, h.rows, h.slot, h.single⟩
    · exact h
  | click index =>
    simp only [perform]
    split
    · rename_i li hli
      have hmem : li ∈ s.previousDays := List.get?_mem hli
      exact loadDataForDate_ready P li.date s (isDateKey_ne_nil _ (h.rows li hmem)) h
    · exact h
  | idle => exact h

theorem step_ready (P : Platform) (s : State) (e : Nat × Action) (h : Ready s) :
    Ready (step P s e) :=
  perform_ready P e.2 _ (advanceTo_ready P e.1 s h)

theorem run_ready (P : Platform) (s : State) (es : List (Nat × Action)) (h : Ready s) :
    Ready (run P s es) := by
  induction es generalizing s with
  | nil => exact h
  | cons e es ih => exact ih _ (step_ready P s e h)

theorem getFormattedDate_ne_nil (date : JSDate) : getFormattedDate date ≠ [] := by
  intro h
  have := congrArg List.length h
  simp [getFormattedDate, lit] at this

theorem initialise_ready (P : Platform) (store : Storage) (now : Nat) (today : JSDate) :
    Ready (initialise P store now today) := by
  unfold initialise
  apply loadDataForDate_ready_of_reload P _ _ (getFormattedDate_ne_nil today)
  · have hp : (populatePreviousDaysList (blankPage store now)).journalText = [] := by
      unfold populatePreviousDaysList; simp only []; split <;> rfl
    simp [hp]
  · exact populatePreviousDaysList_rows_dateKey _
  · have hp : (populatePreviousDaysList (blankPage store now)).timers = [] := by
      unfold populatePreviousDaysList; simp only []; split <;> rfl
    simp [hp]
  · have hp : (populatePreviousDaysList (blankPage store now)).timers = [] := by
      unfold populatePreviousDaysList; simp only []; split <;> rfl
    simp [hp]

theorem perform_edit (P : Platform) (a : Action) (s : State) (h : Ready s)
    (ha : a.isEdit = true) :
    (perform P a s).timers = [{ id := s.nextTimerId, due := s.now + 800 }] ∧
    (perform P a s).now = s.now ∧
    (perform P a s).saveCalls = s.saveCalls ∧
    (perform P a s).storeOps = s.storeOps := by
  cases a with
  | input text =>
    have hr : Ready { s with journalText := text } :=
      ⟨h.bound, h.checklist, h.rows, h.slot, h.single⟩
    obtain ⟨_, _, _, _, f5, f6, f7, _, _⟩ := scheduleSave_frame { s with journalText := text }
    exact ⟨scheduleSave_timers _ hr, f5, f6, f7⟩
  | toggle index =>
    simp only [Action.isEdit, decide_eq_true_eq] at ha
    have hlen : s.taskList.length = dailyTasks.length := by
      have := congrArg List.length h.checklist
      simpa using this
    have hi : index < s.taskList.length := by omega
    have hr : Ready { s with taskList := toggleAt index s.taskList } :=
      ⟨h.bound, by simp only [toggleAt_taskId]; exact h.checklist, h.rows, h.slot, h.single⟩
    obtain ⟨_, _, _, _, f5, f6, f7, _, _⟩ :=
      scheduleSave_frame { s with taskList := toggleAt index s.taskList }
    simp only [perform, hi, if_true]
    exact ⟨scheduleSave_timers _ hr, f5, f6, f7⟩
  | click index => simp [Action.isEdit] at ha
  | idle => simp [Action.isEdit] at ha

theorem step_edit_first (P : Platform) (s : State) (e : Nat × Action) (h : Ready s)
    (ha : e.2.isEdit = true) (hnow : s.now ≤ e.1) :
    (∃ tm, (step P s e).timers = [tm] ∧ tm.due = e.1 + 800) ∧ (step P s e).now = e.1 := by
  have hr := advanceTo_ready P e.1 s h
  obtain ⟨p1, p2, _, _⟩ := perform_edit P e.2 _ hr ha
  have hn : (advanceTo P e.1 s).now = e.1 := by
    rcases timers_cases s h with h0 | ⟨tm, h1⟩
    · rw [advanceTo_of_no_timer P e.1 s h0]
      exact max_eq_right hnow
    · by_cases hdue : tm.due ≤ e.1
      · rw [advanceTo_of_due P e.1 s tm h1 hdue]
        simp only [max_eq_right hdue, max_eq_right hnow, max_eq_left hnow]
        omega
      · rw [advanceTo_of_not_due P e.1 s tm h1 (by omega)]
        exact max_eq_right hnow
  unfold step
  rw [p1, p2, hn]
  exact ⟨⟨_, rfl, rfl⟩, rfl⟩

theorem step_edit_next (P : Platform) (s : State) (e : Nat × Action) (tm : Timer) (h : Ready s)
    (ha : e.2.isEdit = true) (hnow : s.now ≤ e.1) (htm : s.timers = [tm]) (hdue : e.1 < tm.due) :
    (∃ tm2, (step P s e).timers = [tm2] ∧ tm2.due = e.1 + 800) ∧ (step P s e).now = e.1 ∧
    (step P s e).saveCalls = s.saveCalls ∧ (step P s e).storeOps = s.storeOps := by
  obtain ⟨q1, q2⟩ := step_edit_first P s e h ha hnow
  have hr := advanceTo_ready P e.1 s h
  obtain ⟨_, _, p3, p4⟩ := perform_edit P e.2 _ hr ha
  refine ⟨q1, q2, ?_, ?_⟩
  · unfold step; rw [p3, advanceTo_of_not_due P e.1 s tm htm hdue]
  · unfold step; rw [p4, advanceTo_of_not_due P e.1 s tm htm hdue]

theorem run_edits (P : Platform) (es : List (Nat × Action)) (s : State) (e0 : Nat × Action)
    (h : Ready s) (hnow : s.now = e0.1) (htm : ∃ tm, s.timers = [tm] ∧ tm.due = e0.1 + 800)
    (hedits : ∀ x ∈ es, x.2.isEdit = true) (hclose : closelySpaced e0.1 es) :
    Ready (run P s es) ∧ (run P s es).now = lastTime e0 es ∧
    (∃ tm, (run P s es).timers = [tm] ∧ tm.due = lastTime e0 es + 800) ∧
    (run P s es).saveCalls = s.saveCalls ∧ (run P s es).storeOps = s.storeOps := by
  induction es generalizing s e0 with
  | nil => exact ⟨h, hnow, htm, rfl, rfl⟩
  | cons e es ih =>
    obtain ⟨tm, ht1, ht2⟩ := htm
    obtain ⟨c1, c2, c3⟩ := hclose
    have ha := hedits e (List.mem_cons_self _ _)
    obtain ⟨q1, q2, q3, q4⟩ := step_edit_next P s e tm h ha (by omega) ht1 (by omega)
    obtain ⟨r1, r2, r3, r4, r5⟩ := ih (step P s e) e (step_ready P s e h) q2 q1
      (fun x hx => hedits x (List.mem_cons_of_mem _ hx)) c3
    exact ⟨r1, r2, r3, r4.trans q3, r5.trans q4⟩

theorem saveData_storeOps_of_content (P : Platform) (s : State)
    (hbound : s.currentlyEditingDate ≠ [])
    (hne : isEmpty (dataToSave s) = false)
    (haccept : P.accepts s.localStorage s.currentlyEditingDate (JSONstringify (dataToSave s)) = true) :
    (saveData P s).storeOps =
      s.storeOps ++ [StoreOp.setItem s.currentlyEditingDate (JSONstringify (dataToSave s))] := by
  have hd : dataToSave { s with saveCalls := s.saveCalls + 1 } = dataToSave s := rfl
  simp [saveData, hbound, hd, hne, haccept, updatePreviousDaysHighlight,
    populatePreviousDaysList, showStatus]
  split <;> rfl

theorem saveData_storeOps_of_blank (P : Platform) (s : State)
    (hblank : isEmpty (dataToSave s) = true) :
    (saveData P s).storeOps = s.storeOps ∨
    (saveData P s).storeOps = s.storeOps ++ [StoreOp.removeItem s.currentlyEditingDate] := by
  have hd : dataToSave { s with saveCalls := s.saveCalls + 1 } = dataToSave s := rfl
  unfold saveData
  simp only [hd, hblank, Bool.not_true, Bool.false_eq_true, if_false]
  split
  · exact Or.inl rfl
  · split
    · exact Or.inl rfl
    · split
      · exact Or.inl rfl
      · right
        simp only [populatePreviousDaysList, showStatus]
        split <;> rfl

/-- C4 (amended). From a page state `s0` that is `Ready` (as the page is
after initialisation and after every action: `initialise_ready`,
`run_ready`): at most one save is pending at every moment; and a run of
edits `e :: es`, each less than 800 ms after the one before it, leaves one
pending save due 800 ms after the last edit, with no call of `saveData` and
no store mutation since the first edit; when time then passes to `T`, at
least 800 ms after the last edit, `saveData` has run exactly once, at 800 ms
after the last edit, on the page as the last edit left it, and no save is
pending. That call writes the store exactly once (`setItem` of the record of
that page under the bound date) when the record is not empty and the store
accepts the write; when the record is empty it writes nothing (at most it
removes the entry of the bound date). -/
theorem debounce_single_save (P : Platform) (s0 : State) (h0 : Ready s0)
    (e : Nat × Action) (es : List (Nat × Action)) (T : Nat)
    (hfirst : s0.now ≤ e.1)
    (hedits : ∀ x ∈ e :: es, x.2.isEdit = true)
    (hclose : closelySpaced e.1 es)
    (hT : lastTime e es + 800 ≤ T) :
    (∀ events, (run P s0 events).timers.length ≤ 1) ∧
    (∃ tm, (run P s0 (e :: es)).timers = [tm] ∧ tm.due = lastTime e es + 800) ∧
    (run P s0 (e :: es)).saveCalls = (step P s0 e).saveCalls ∧
    (run P s0 (e :: es)).storeOps = (step P s0 e).storeOps ∧
    advanceTo P T (run P s0 (e :: es)) =
      { saveData P { run P s0 (e :: es) with timers := [], now := lastTime e es + 800 } with
        now := T } ∧
    (advanceTo P T (run P s0 (e :: es))).saveCalls = (step P s0 e).saveCalls + 1 ∧
    (advanceTo P T (run P s0 (e :: es))).timers = [] ∧
    (isEmpty (dataToSave (run P s0 (e :: es))) = false →
      P.accepts (run P s0 (e :: es)).localStorage (run P s0 (e :: es)).currentlyEditingDate
        (JSONstringify (dataToSave (run P s0 (e :: es)))) = true →
      (advanceTo P T (run P s0 (e :: es))).storeOps =
        (step P s0 e).storeOps ++
          [StoreOp.setItem (run P s0 (e :: es)).currentlyEditingDate
            (JSONstringify (dataToSave (run P s0 (e :: es))))]) ∧
    (isEmpty (dataToSave (run P s0 (e :: es))) = true →
      (advanceTo P T (run P s0 (e :: es))).storeOps = (step P s0 e).storeOps ∨
      (advanceTo P T (run P s0 (e :: es))).storeOps =
        (step P s0 e).storeOps ++
          [StoreOp.removeItem (run P s0 (e :: es)).currentlyEditingDate]) := by
  have ha := hedits e (List.mem_cons_self _ _)
  obtain ⟨q1, q2⟩ := step_edit_first P s0 e h0 ha hfirst
  obtain ⟨r1, r2, ⟨tm, r3, r3d⟩, r4, r5⟩ := run_edits P es (step P s0 e) e (step_ready P s0 e h0) q2 q1
    (fun x hx => hedits x (List.mem_cons_of_mem _ hx)) hclose
  have hrun : run P s0 (e :: es) = run P (step P s0 e) es := rfl
  rw [hrun]
  generalize run P (step P s0 e) es = sN at r1 r2 r3 r4 r5 ⊢
  have hadv := advanceTo_of_due P T sN tm r3 (by omega)
  have hm1 : max sN.now tm.due = lastTime e es + 800 := by rw [r2, r3d]; omega
  have hm2 : max (lastTime e es + 800) T = T := max_eq_right hT
  rw [hm1, hm2] at hadv
  obtain ⟨_, _, _, f4, _, _, _, f8⟩ :=
    saveData_frame P { sN with timers := [], now := lastTime e es + 800 }
  have hd : dataToSave { sN with timers := [], now := lastTime e es + 800 } = dataToSave sN := rfl
  refine ⟨fun events => (run_ready P _ events h0).single, ⟨tm, r3, r3d⟩, r4, r5, hadv, ?_, ?_,
    ?_, ?_⟩
  · rw [hadv]; exact f8.trans (congrArg (· + 1) r4)
  · rw [hadv]; exact f4
  · intro hne hacc
    rw [hadv]
    have := saveData_storeOps_of_content P { sN with timers := [], now := lastTime e es + 800 }
      r1.bound hne hacc
    exact this.trans (congrArg (· ++ _) r5)
  · intro hblank
    rw [hadv]
    rcases saveData_storeOps_of_blank P { sN with timers := [], now := lastTime e es + 800 }
      hblank with h | h
    · exact Or.inl (h.trans r5)
    · exact Or.inr (h.trans (congrArg (· ++ _) r5))

/-- Witness for C4 (amended): three edits within the quiet period on a fresh
page, then time passing to 1500 ms. -/
theorem debounce_single_save_witness :
    Ready freshPage ∧ freshPage.now ≤ 0 ∧ (∀ x ∈ threeEdits, x.2.isEdit = true) ∧
    closelySpaced 0 threeEdits.tail ∧
    lastTime (0, Action.input (lit "h")) threeEdits.tail + 800 ≤ 1500 ∧
    (advanceTo lenient 1500 (run lenient freshPage threeEdits)).saveCalls =
      (step lenient freshPage (0, Action.input (lit "h"))).saveCalls + 1 ∧
    (advanceTo lenient 1500 (run lenient freshPage threeEdits)).saveCalls = 1 ∧
    (advanceTo lenient 1500 (run lenient freshPage threeEdits)).storeOps =
      [StoreOp.setItem (lit "2024-03-10")
        (JSONstringify ⟨lit "hi", [(lit "task-exercise", false), (lit "task-read", true),
          (lit "task-hydrate", false), (lit "task-plan", false)]⟩)] :=
  ⟨initialise_ready _ _ _ _, by decide, by decide, by simp [closelySpaced, threeEdits],
    by decide,
    (debounce_single_save lenient freshPage (initialise_ready _ _ _ _)
      (0, Action.input (lit "h")) threeEdits.tail 1500 (by decide) (by decide)
      (by simp [closelySpaced, threeEdits]) (by decide)).2.2.2.2.2.1,
    by decide, by decide⟩

/-- C4 as stated fails: one edit that leaves a blank record (a single space
typed into the journal of a fresh page) is followed, after the quiet period,
by one call of `saveData` and by no store write at all. -/
theorem debounce_blank_edit_writes_nothing :
    afterBlankEdit.saveCalls = 1 ∧ afterBlankEdit.timers = [] ∧
    afterBlankEdit.journalText = lit " " ∧
    afterBlankEdit.storeOps = [] ∧ afterBlankEdit.localStorage = [] := by
  decide

/-- C10, at the failing input: the edit made while 2024-03-10 was bound is
never stored. The scheduled save runs once, after the switch, and writes the
unchanged record of 2024-03-09 back under 2024-03-09; the store holds no
entry under 2024-03-10. -/
theorem edit_lost_on_date_switch :
    pageWithYesterday.currentlyEditingDate = lit "2024-03-10" ∧
    (step lenient pageWithYesterday (0, Action.input (lit "hello"))).journalText = lit "hello" ∧
    (step lenient pageWithYesterday (0, Action.input (lit "hello"))).timers.length = 1 ∧
    switchWhileSavePending.saveCalls = 1 ∧
    switchWhileSavePending.timers = [] ∧
    switchWhileSavePending.currentlyEditingDate = lit "2024-03-09" ∧
    switchWhileSavePending.localStorage.getItem (lit "2024-03-10") = none ∧
    switchWhileSavePending.storeOps =
      [StoreOp.setItem (lit "2024-03-09")
        (JSONstringify ⟨lit "yesterday", [(lit "task-exercise", false),
          (lit "task-read", false), (lit "task-hydrate", false), (lit "task-plan", false)]⟩)] := by
  refine ⟨by decide, by decide, by decide, by decide, by decide, by decide, by decide, ?_⟩
  decide

/-! ## The recursion budget of the parser is never exhausted -/

theorem skipWs_length (s : JSString) : (skipWs s).length ≤ s.length := by
  unfold skipWs
  induction s with
  | nil => simp
  | cons u t ih =>
    simp only [List.dropWhile]
    split
    · simp only [List.length_cons]; omega
    · exact Nat.le_refl _

theorem consUnit_eq_some (u : Nat) (x : Option (JSString × JSString)) (k r : JSString)
    (h : consUnit u x = some (k, r)) : ∃ k2, x = some (k2, r) := by
  cases x with
  | none => simp [consUnit] at h
  | some p =>
    obtain ⟨a, b⟩ := p
    simp only [consUnit, Option.some.injEq, Prod.mk.injEq] at h
    exact ⟨a, by rw [h.2]⟩

theorem parseChars_step (u : Nat) (rest k r : JSString)
    (h : parseChars (u :: rest) = some (k, r)) :
    r = rest ∨ (∃ v, consUnit v (parseChars rest) = some (k, r)) ∨
    (∃ e rest2 v, rest = e :: rest2 ∧ consUnit v (parseChars rest2) = some (k, r)) ∨
    (∃ e a b c d rest3 v, rest = e :: a :: b :: c :: d :: rest3 ∧
      consUnit v (parseChars rest3) = some (k, r)) := by
  rw [parseChars.eq_def] at h
  dsimp only at h
  by_cases c0 : u = 34
  · rw [if_pos c0] at h
    simp only [Option.some.injEq, Prod.mk.injEq] at h
    exact Or.inl h.2.symm
  rw [if_neg c0] at h
  by_cases c00 : u = 92
  · rw [if_pos c00] at h
    rcases rest with _ | ⟨e, rest2⟩
    · cases h
    dsimp only at h
    by_cases c1 : e = 34
    · rw [if_pos c1] at h; exact Or.inr (Or.inr (Or.inl ⟨_, _, _, rfl, h⟩))
    rw [if_neg c1] at h
    by_cases c2 : e = 92
    · rw [if_pos c2] at h; exact Or.inr (Or.inr (Or.inl ⟨_, _, _, rfl, h⟩))
    rw [if_neg c2] at h
    by_cases c3 : e = 47
    · rw [if_pos c3] at h; exact Or.inr (Or.inr (Or.inl ⟨_, _, _, rfl, h⟩))
    rw [if_neg c3] at h
    by_cases c4 : e = 98
    · rw [if_pos c4] at h; exact Or.inr (Or.inr (Or.inl ⟨_, _, _, rfl, h⟩))
    rw [if_neg c4] at h
    by_cases c5 : e = 102
    · rw [if_pos c5] at h; exact Or.inr (Or.inr (Or.inl ⟨_, _, _, rfl, h⟩))
    rw [if_neg c5] at h
    by_cases c6 : e = 110
    · rw [if_pos c6] at h; exact Or.inr (Or.inr (Or.inl ⟨_, _, _, rfl, h⟩))
    rw [if_neg c6] at h
    by_cases c7 : e = 114
    · rw [if_pos c7] at h; exact Or.inr (Or.inr (Or.inl ⟨_, _, _, rfl, h⟩))
    rw [if_neg c7] at h
    by_cases c8 : e = 116
    · rw [if_pos c8] at h; exact Or.inr (Or.inr (Or.inl ⟨_, _, _, rfl, h⟩))
    rw [if_neg c8] at h
    by_cases c9 : e = 117
    · rw [if_pos c9] at h
      rcases rest2 with _ | ⟨a, _ | ⟨b, _ | ⟨c, _ | ⟨d, rest3⟩⟩⟩⟩
      · cases h
      · cases h
      · cases h
      · cases h
      · dsimp only at h
        cases hx : hex4 a b c d with
        | none => rw [hx] at h; cases h
        | some v => rw [hx] at h; exact Or.inr (Or.inr (Or.inr ⟨_, _, _, _, _, _, _, rfl, h⟩))
    · rw [if_neg c9] at h; cases h
  rw [if_neg c00] at h
  by_cases c01 : u < 32
  · rw [if_pos c01] at h; cases h
  · rw [if_neg c01] at h; exact Or.inr (Or.inl ⟨_, h⟩)


theorem parseChars_length (s k r : JSString) (h : parseChars s = some (k, r)) :
    r.length < s.length := by
  obtain ⟨n, hn⟩ : ∃ n, s.length = n := ⟨_, rfl⟩
  induction n using Nat.strong_induction_on generalizing s k with
  | _ n ih =>
    have step : ∀ (u : Nat) (t : JSString), t.length < s.length →
        consUnit u (parseChars t) = some (k, r) → r.length < s.length := by
      intro u t ht hc
      obtain ⟨k2, hk2⟩ := consUnit_eq_some u _ k r hc
      have := ih t.length (by omega) t k2 hk2 rfl
      omega
    cases s with
    | nil => rw [parseChars.eq_def] at h; cases h
    | cons u rest =>
      rcases parseChars_step u rest k r h with h1 | ⟨v, h1⟩ | ⟨e, rest2, v, h0, h1⟩ |
        ⟨e, a, b, c, d, rest3, v, h0, h1⟩
      · rw [h1]; simp
      · exact step v rest (by simp) h1
      · exact step v rest2 (by rw [h0]; simp; omega) h1
      · exact step v rest3 (by rw [h0]; simp; omega) h1

theorem dropWhile_length (p : Nat → Bool) (s : JSString) : (s.dropWhile p).length ≤ s.length := by
  induction s with
  | nil => simp
  | cons u t ih =>
    simp only [List.dropWhile]
    split
    · simp only [List.length_cons]; omega
    · exact Nat.le_refl _

theorem parseDigits_length (s n r : JSString) (h : parseDigits s = some (n, r)) :
    r.length ≤ s.length := by
  unfold parseDigits at h
  split_ifs at h
  simp only [Option.some.injEq, Prod.mk.injEq] at h
  rw [← h.2]
  exact dropWhile_length _ _

theorem parseInt_length (s n r : JSString) (h : parseInt s = some (n, r)) :
    r.length < s.length := by
  cases s with
  | nil => simp [parseInt] at h
  | cons d rest =>
    simp only [parseInt] at h
    split_ifs at h
    · simp only [Option.some.injEq, Prod.mk.injEq] at h
      rw [← h.2]; simp
    · simp only [Option.some.injEq, Prod.mk.injEq] at h
      rw [← h.2]
      have := dropWhile_length isDigit rest
      simp only [List.length_cons]; omega

theorem parseFrac_length (s n r : JSString) (h : parseFrac s = some (n, r)) :
    r.length ≤ s.length := by
  cases s with
  | nil =>
    simp only [parseFrac, Option.some.injEq, Prod.mk.injEq] at h
    rw [← h.2]
  | cons u rest =>
    simp only [parseFrac] at h
    split_ifs at h
    · cases hd : parseDigits rest with
      | none => rw [hd] at h; cases h
      | some p =>
        obtain ⟨ds, r2⟩ := p
        rw [hd] at h
        simp only [Option.some.injEq, Prod.mk.injEq] at h
        have := parseDigits_length rest ds r2 hd
        rw [← h.2]; simp only [List.length_cons]; omega
    · simp only [Option.some.injEq, Prod.mk.injEq] at h
      rw [← h.2]

theorem parseExp_length (s n r : JSString) (h : parseExp s = some (n, r)) :
    r.length ≤ s.length := by
  cases s with
  | nil =>
    simp only [parseExp, Option.some.injEq, Prod.mk.injEq] at h
    rw [← h.2]
  | cons u rest =>
    simp only [parseExp] at h
    split_ifs at h
    · cases rest with
      | nil => cases h
      | cons g rest2 =>
        dsimp only at h
        split_ifs at h
        · cases hd : parseDigits rest2 with
          | none => rw [hd] at h; cases h
          | some p =>
            obtain ⟨ds, r2⟩ := p
            rw [hd] at h
            simp only [Option.some.injEq, Prod.mk.injEq] at h
            have := parseDigits_length rest2 ds r2 hd
            rw [← h.2]; simp only [List.length_cons]; omega
        · cases hd : parseDigits (g :: rest2) with
          | none => rw [hd] at h; cases h
          | some p =>
            obtain ⟨ds, r2⟩ := p
            rw [hd] at h
            simp only [Option.some.injEq, Prod.mk.injEq] at h
            have := parseDigits_length (g :: rest2) ds r2 hd
            rw [← h.2]; simp only [List.length_cons] at this ⊢; omega
    · simp only [Option.some.injEq, Prod.mk.injEq] at h
      rw [← h.2]

theorem parseNumber_length (s n r : JSString) (h : parseNumber s = some (n, r)) :
    r.length < s.length := by
  unfold parseNumber at h
  have key : ∀ (sign t : JSString), t.length ≤ s.length →
      (match parseInt t with
        | none => none
        | some (i, r1) =>
          match parseFrac r1 with
          | none => none
          | some (f, r2) =>
            match parseExp r2 with
            | none => none
            | some (e, r3) => some (sign ++ i ++ f ++ e, r3)) = some (n, r) →
      r.length < s.length := by
    intro sign t ht h
    cases hi : parseInt t with
    | none => rw [hi] at h; cases h
    | some p1 =>
      obtain ⟨i, r1⟩ := p1
      rw [hi] at h
      dsimp only at h
      cases hf : parseFrac r1 with
      | none => rw [hf] at h; cases h
      | some p2 =>
        obtain ⟨f, r2⟩ := p2
        rw [hf] at h
        dsimp only at h
        cases he : parseExp r2 with
        | none => rw [he] at h; cases h
        | some p3 =>
          obtain ⟨e, r3⟩ := p3
          rw [he] at h
          simp only [Option.some.injEq, Prod.mk.injEq] at h
          have a1 := parseInt_length _ _ _ hi
          have a2 := parseFrac_length _ _ _ hf
          have a3 := parseExp_length _ _ _ he
          rw [← h.2]; omega
  cases s with
  | nil => exact key [] [] (Nat.le_refl _) h
  | cons u rest =>
    by_cases hu : u = 45
    · simp only [hu, if_true] at h
      subst hu
      exact key [45] rest (by simp) h
    · simp only [hu, if_false] at h
      exact key [] (u :: rest) (Nat.le_refl _) h

theorem expect_length (w s r : JSString) (h : expect w s = some r) : r.length ≤ s.length := by
  unfold expect at h
  split_ifs at h
  simp only [Option.some.injEq] at h
  rw [← h]; simp

theorem parseValue_budget_step (g : Nat)
    (ihe : ∀ s vs r, parseElements g s = some (vs, r) →
      r.length < s.length ∧ ∀ f, 2 * s.length + 2 ≤ f → parseElements f s = some (vs, r))
    (ihm : ∀ s ms r, parseMembers g s = some (ms, r) →
      r.length < s.length ∧ ∀ f, 2 * s.length + 2 ≤ f → parseMembers f s = some (ms, r))
    (s : JSString) (v : JSON) (r : JSString) (h : parseValue (g + 1) s = some (v, r)) :
    r.length < s.length ∧ ∀ f, 2 * s.length + 1 ≤ f → parseValue f s = some (v, r) := by
  rw [parseValue] at h
  have hws := skipWs_length s
  cases hs : skipWs s with
  | nil => rw [hs] at h; cases h
  | cons u rest =>
    rw [hs] at h hws
    simp only [List.length_cons] at hws
    dsimp only at h
    have unfold_goal : ∀ f, 2 * s.length + 1 ≤ f → ∃ f2, f = f2 + 1 ∧ 2 * rest.length + 2 ≤ f2 :=
      fun f hf => ⟨f - 1, by omega, by omega⟩
    by_cases c1 : u = 123
    · rw [if_pos c1] at h
      have hws2 := skipWs_length rest
      cases hs2 : skipWs rest with
      | nil => rw [hs2] at h; cases h
      | cons c rest2 =>
        rw [hs2] at h hws2
        simp only [List.length_cons] at hws2
        dsimp only at h
        by_cases c2 : c = 125
        · rw [if_pos c2] at h
          simp only [Option.some.injEq, Prod.mk.injEq] at h
          obtain ⟨rfl, rfl⟩ := h
          refine ⟨by omega, fun f hf => ?_⟩
          obtain ⟨f2, rfl, _⟩ := unfold_goal f hf
          rw [parseValue, hs]; dsimp only
          rw [if_pos c1, hs2]; dsimp only
          rw [if_pos c2]
        · rw [if_neg c2] at h
          cases hm : parseMembers g (c :: rest2) with
          | none => rw [hm] at h; cases h
          | some p =>
            obtain ⟨ms, r2⟩ := p
            rw [hm] at h
            simp only [Option.some.injEq, Prod.mk.injEq] at h
            obtain ⟨rfl, rfl⟩ := h
            obtain ⟨l1, l2⟩ := ihm _ _ _ hm
            simp only [List.length_cons] at l1 l2
            refine ⟨by omega, fun f hf => ?_⟩
            obtain ⟨f2, rfl, _⟩ := unfold_goal f hf
            rw [parseValue, hs]; dsimp only
            rw [if_pos c1, hs2]; dsimp only
            rw [if_neg c2, l2 f2 (by omega)]
    rw [if_neg c1] at h
    by_cases c3 : u = 91
    · rw [if_pos c3] at h
      have hws2 := skipWs_length rest
      cases hs2 : skipWs rest with
      | nil => rw [hs2] at h; cases h
      | cons c rest2 =>
        rw [hs2] at h hws2
        simp only [List.length_cons] at hws2
        dsimp only at h
        by_cases c2 : c = 93
        · rw [if_pos c2] at h
          simp only [Option.some.injEq, Prod.mk.injEq] at h
          obtain ⟨rfl, rfl⟩ := h
          refine ⟨by omega, fun f hf => ?_⟩
          obtain ⟨f2, rfl, _⟩ := unfold_goal f hf
          rw [parseValue, hs]; dsimp only
          rw [if_neg c1, if_pos c3, hs2]; dsimp only
          rw [if_pos c2]
        · rw [if_neg c2] at h
          cases hm : parseElements g (c :: rest2) with
          | none => rw [hm] at h; cases h
          | some p =>
            obtain ⟨vs, r2⟩ := p
            rw [hm] at h
            simp only [Option.some.injEq, Prod.mk.injEq] at h
            obtain ⟨rfl, rfl⟩ := h
            obtain ⟨l1, l2⟩ := ihe _ _ _ hm
            simp only [List.length_cons] at l1 l2
            refine ⟨by omega, fun f hf => ?_⟩
            obtain ⟨f2, rfl, _⟩ := unfold_goal f hf
            rw [parseValue, hs]; dsimp only
            rw [if_neg c1, if_pos c3, hs2]; dsimp only
            rw [if_neg c2, l2 f2 (by omega)]
    rw [if_neg c3] at h
    have leaf : r.length < s.length →
        (∀ f2, parseValue (f2 + 1) s = parseValue (g + 1) s) →
        parseValue (g + 1) s = some (v, r) →
        r.length < s.length ∧ ∀ f, 2 * s.length + 1 ≤ f → parseValue f s = some (v, r) := by
      intro hl he hv
      refine ⟨hl, fun f hf => ?_⟩
      obtain ⟨f2, rfl, _⟩ := unfold_goal f hf
      rw [he f2, hv]
    have same : ∀ f2, parseValue (f2 + 1) s = parseValue (g + 1) s := by
      intro f2
      rw [parseValue, parseValue, hs]; dsimp only
      rw [if_neg c1, if_neg c3, if_neg c1, if_neg c3]
    have hv : parseValue (g + 1) s = some (v, r) := by
      rw [parseValue, hs]; dsimp only
      rw [if_neg c1, if_neg c3]; exact h
    refine leaf ?_ same hv
    by_cases c4 : u = 34
    · rw [if_pos c4] at h
      cases hc : parseChars rest with
      | none => rw [hc] at h; cases h
      | some p =>
        obtain ⟨str, r2⟩ := p
        rw [hc] at h
        simp only [Option.some.injEq, Prod.mk.injEq] at h
        have := parseChars_length _ _ _ hc
        rw [← h.2]; omega
    rw [if_neg c4] at h
    by_cases c5 : u = 116
    · rw [if_pos c5] at h
      cases hc : expect (lit "rue") rest with
      | none => rw [hc] at h; cases h
      | some r2 =>
        rw [hc] at h
        simp only [Option.some.injEq, Prod.mk.injEq] at h
        have := expect_length _ _ _ hc
        rw [← h.2]; omega
    rw [if_neg c5] at h
    by_cases c6 : u = 102
    · rw [if_pos c6] at h
      cases hc : expect (lit "alse") rest with
      | none => rw [hc] at h; cases h
      | some r2 =>
        rw [hc] at h
        simp only [Option.some.injEq, Prod.mk.injEq] at h
        have := expect_length _ _ _ hc
        rw [← h.2]; omega
    rw [if_neg c6] at h
    by_cases c7 : u = 110
    · rw [if_pos c7] at h
      cases hc : expect (lit "ull") rest with
      | none => rw [hc] at h; cases h
      | some r2 =>
        rw [hc] at h
        simp only [Option.some.injEq, Prod.mk.injEq] at h
        have := expect_length _ _ _ hc
        rw [← h.2]; omega
    rw [if_neg c7] at h
    cases hc : parseNumber (u :: rest) with
    | none => rw [hc] at h; cases h
    | some p =>
      obtain ⟨numeral, r2⟩ := p
      rw [hc] at h
      simp only [Option.some.injEq, Prod.mk.injEq] at h
      have := parseNumber_length _ _ _ hc
      simp only [List.length_cons] at this
      rw [← h.2]; omega

theorem parseElements_budget_step (g : Nat)
    (ihv : ∀ s v r, parseValue g s = some (v, r) →
      r.length < s.length ∧ ∀ f, 2 * s.length + 1 ≤ f → parseValue f s = some (v, r))
    (ihe : ∀ s vs r, parseElements g s = some (vs, r) →
      r.length < s.length ∧ ∀ f, 2 * s.length + 2 ≤ f → parseElements f s = some (vs, r))
    (s : JSString) (vs : List JSON) (r : JSString)
    (h : parseElements (g + 1) s = some (vs, r)) :
    r.length < s.length ∧ ∀ f, 2 * s.length + 2 ≤ f → parseElements f s = some (vs, r) := by
  rw [parseElements] at h
  cases hv : parseValue g s with
  | none => rw [hv] at h; cases h
  | some p =>
    obtain ⟨v, r1⟩ := p
    rw [hv] at h
    dsimp only at h
    obtain ⟨l1, l2⟩ := ihv _ _ _ hv
    have hws := skipWs_length r1
    cases hs : skipWs r1 with
    | nil => rw [hs] at h; cases h
    | cons c rest =>
      rw [hs] at h hws
      simp only [List.length_cons] at hws
      dsimp only at h
      by_cases c1 : c = 44
      · rw [if_pos c1] at h
        cases he : parseElements g rest with
        | none => rw [he] at h; cases h
        | some q =>
          obtain ⟨ws, r2⟩ := q
          rw [he] at h
          simp only [Option.some.injEq, Prod.mk.injEq] at h
          obtain ⟨rfl, rfl⟩ := h
          obtain ⟨m1, m2⟩ := ihe _ _ _ he
          refine ⟨by omega, fun f hf => ?_⟩
          obtain ⟨f2, rfl⟩ : ∃ f2, f = f2 + 1 := ⟨f - 1, by omega⟩
          rw [parseElements, l2 f2 (by omega)]; dsimp only
          rw [hs]; dsimp only
          rw [if_pos c1, m2 f2 (by omega)]
      · rw [if_neg c1] at h
        by_cases c2 : c = 93
        · rw [if_pos c2] at h
          simp only [Option.some.injEq, Prod.mk.injEq] at h
          obtain ⟨rfl, rfl⟩ := h
          refine ⟨by omega, fun f hf => ?_⟩
          obtain ⟨f2, rfl⟩ : ∃ f2, f = f2 + 1 := ⟨f - 1, by omega⟩
          rw [parseElements, l2 f2 (by omega)]; dsimp only
          rw [hs]; dsimp only
          rw [if_neg c1, if_pos c2]
        · rw [if_neg c2] at h; cases h

theorem parseMembers_budget_step (g : Nat)
    (ihv : ∀ s v r, parseValue g s = some (v, r) →
      r.length < s.length ∧ ∀ f, 2 * s.length + 1 ≤ f → parseValue f s = some (v, r))
    (ihm : ∀ s ms r, parseMembers g s = some (ms, r) →
      r.length < s.length ∧ ∀ f, 2 * s.length + 2 ≤ f → parseMembers f s = some (ms, r))
    (s : JSString) (ms : List (JSString × JSON)) (r : JSString)
    (h : parseMembers (g + 1) s = some (ms, r)) :
    r.length < s.length ∧ ∀ f, 2 * s.length + 2 ≤ f → parseMembers f s = some (ms, r) := by
  rw [parseMembers] at h
  have hws := skipWs_length s
  cases hs : skipWs s with
  | nil => rw [hs] at h; cases h
  | cons q rest =>
    rw [hs] at h hws
    simp only [List.length_cons] at hws
    dsimp only at h
    by_cases c0 : q = 34
    · rw [if_pos c0] at h
      cases hc : parseChars rest with
      | none => rw [hc] at h; cases h
      | some p =>
        obtain ⟨key, r1⟩ := p
        rw [hc] at h
        dsimp only at h
        have hk := parseChars_length _ _ _ hc
        have hws1 := skipWs_length r1
        cases hs1 : skipWs r1 with
        | nil => rw [hs1] at h; cases h
        | cons c rest2 =>
          rw [hs1] at h hws1
          simp only [List.length_cons] at hws1
          dsimp only at h
          by_cases c1 : c = 58
          · rw [if_pos c1] at h
            cases hv : parseValue g rest2 with
            | none => rw [hv] at h; cases h
            | some p2 =>
              obtain ⟨v, r2⟩ := p2
              rw [hv] at h
              dsimp only at h
              obtain ⟨l1, l2⟩ := ihv _ _ _ hv
              have hws2 := skipWs_length r2
              cases hs2 : skipWs r2 with
              | nil => rw [hs2] at h; cases h
              | cons d rest3 =>
                rw [hs2] at h hws2
                simp only [List.length_cons] at hws2
                dsimp only at h
                by_cases c2 : d = 44
                · rw [if_pos c2] at h
                  cases hm : parseMembers g rest3 with
                  | none => rw [hm] at h; cases h
                  | some p3 =>
                    obtain ⟨ms2, r3⟩ := p3
                    rw [hm] at h
                    simp only [Option.some.injEq, Prod.mk.injEq] at h
                    obtain ⟨rfl, rfl⟩ := h
                    obtain ⟨m1, m2⟩ := ihm _ _ _ hm
                    refine ⟨by omega, fun f hf => ?_⟩
                    obtain ⟨f2, rfl⟩ : ∃ f2, f = f2 + 1 := ⟨f - 1, by omega⟩
                    rw [parseMembers, hs]; dsimp only
                    rw [if_pos c0, hc]; dsimp only
                    rw [hs1]; dsimp only
                    rw [if_pos c1, l2 f2 (by omega)]; dsimp only
                    rw [hs2]; dsimp only
                    rw [if_pos c2, m2 f2 (by omega)]
                · rw [if_neg c2] at h
                  by_cases c3 : d = 125
                  · rw [if_pos c3] at h
                    simp only [Option.some.injEq, Prod.mk.injEq] at h
                    obtain ⟨rfl, rfl⟩ := h
                    refine ⟨by omega, fun f hf => ?_⟩
                    obtain ⟨f2, rfl⟩ : ∃ f2, f = f2 + 1 := ⟨f - 1, by omega⟩
                    rw [parseMembers, hs]; dsimp only
                    rw [if_pos c0, hc]; dsimp only
                    rw [hs1]; dsimp only
                    rw [if_pos c1, l2 f2 (by omega)]; dsimp only
                    rw [hs2]; dsimp only
                    rw [if_neg c2, if_pos c3]
                  · rw [if_neg c3] at h; cases h
          · rw [if_neg c1] at h; cases h
    · rw [if_neg c0] at h; cases h

theorem parse_budget (g : Nat) :
    (∀ s v r, parseValue g s = some (v, r) →
      r.length < s.length ∧ ∀ f, 2 * s.length + 1 ≤ f → parseValue f s = some (v, r)) ∧
    (∀ s vs r, parseElements g s = some (vs, r) →
      r.length < s.length ∧ ∀ f, 2 * s.length + 2 ≤ f → parseElements f s = some (vs, r)) ∧
    (∀ s ms r, parseMembers g s = some (ms, r) →
      r.length < s.length ∧ ∀ f, 2 * s.length + 2 ≤ f → parseMembers f s = some (ms, r)) := by
  induction g with
  | zero =>
    refine ⟨?_, ?_, ?_⟩
    · intro s v r h; rw [parseValue] at h; cases h
    · intro s vs r h; rw [parseElements] at h; cases h
    · intro s ms r h; rw [parseMembers] at h; cases h
  | succ g ih =>
    obtain ⟨ihv, ihe, ihm⟩ := ih
    exact ⟨parseValue_budget_step g ihe ihm, parseElements_budget_step g ihv ihe,
      parseMembers_budget_step g ihv ihm⟩

/-- The recursion budget of `JSONparse` loses no parse: a value that
`parseValue` finds with any budget is found with the budget `JSONparse`
uses, followed by the same rest of the input. -/
theorem parseValue_budget (text : JSString) (fuel : Nat) (v : JSON) (rest : JSString)
    (h : parseValue fuel text = some (v, rest)) :
    parseValue (2 * text.length + 1) text = some (v, rest) :=
  ((parse_budget fuel).1 text v rest h).2 _ (Nat.le_refl _)

/-! ## The store keeps each key once -/

theorem saveData_localStorage_cases (P : Platform) (s : State) :
    (saveData P s).localStorage = s.localStorage ∨
    (∃ value, (saveData P s).localStorage = s.localStorage.setItem s.currentlyEditingDate value) ∨
    (saveData P s).localStorage = s.localStorage.removeItem s.currentlyEditingDate := by
  unfold saveData
  simp only [populatePreviousDaysList, updatePreviousDaysHighlight, showStatus, clearStatus]
  repeat' split
  all_goals first
    | exact Or.inl rfl
    | exact Or.inr (Or.inl ⟨_, rfl⟩)
    | exact Or.inr (Or.inr rfl)

theorem saveData_wellFormed (P : Platform) (s : State) (h : s.localStorage.WellFormed) :
    (saveData P s).localStorage.WellFormed := by
  rcases saveData_localStorage_cases P s with e | ⟨v, e⟩ | e <;> rw [e]
  · exact h
  · exact setItem_wellFormed _ _ _ h
  · exact removeItem_wellFormed _ _ h

theorem runTimers_wellFormed (P : Platform) (fuel t : Nat) (s : State)
    (h : s.localStorage.WellFormed) : (runTimers P fuel t s).localStorage.WellFormed := by
  induction fuel generalizing s with
  | zero => exact h
  | succ n ih =>
    simp only [runTimers]
    split
    · exact h
    · split
      · exact ih _ (saveData_wellFormed P _ h)
      · exact h

theorem loadDataForDate_localStorage (P : Platform) (d : JSString) (s : State) :
    (loadDataForDate P d s).localStorage = s.localStorage := by
  by_cases hc : s.currentlyEditingDate = d ∧ s.journalText ≠ []
  · rw [loadDataForDate_of_shown P d s hc.1 hc.2]
  · rw [loadDataForDate_of_reload P d s hc]

theorem perform_localStorage (P : Platform) (a : Action) (s : State) :
    (perform P a s).localStorage = s.localStorage := by
  cases a with
  | input text => exact (scheduleSave_frame _).2.2.2.2.2.2.2.1
  | toggle index =>
    simp only [perform]
    split
    · exact (scheduleSave_frame _).2.2.2.2.2.2.2.1
    · rfl
  | click index =>
    simp only [perform]
    split
    · exact loadDataForDate_localStorage P _ s
    · rfl
  | idle => rfl

/-- The store of a page holds each key once at every moment, when it did at
the start. -/
theorem run_wellFormed (P : Platform) (s : State) (es : List (Nat × Action))
    (h : s.localStorage.WellFormed) : (run P s es).localStorage.WellFormed := by
  induction es generalizing s with
  | nil => exact h
  | cons e es ih =>
    apply ih
    unfold step
    rw [perform_localStorage]
    exact runTimers_wellFormed P _ _ s h

theorem initialise_localStorage (P : Platform) (store : Storage) (now : Nat) (today : JSDate) :
    (initialise P store now today).localStorage = store := by
  unfold initialise
  rw [loadDataForDate_localStorage]
  unfold populatePreviousDaysList
  simp only []
  split <;> rfl

end Journal
